import Mathlib

/-!
# Contract risk analyzer (`src/backend/analyzer.js`)

A shallow embedding of `analyzeRisks` and of the parts of the ECMAScript
library it calls (`String.prototype.match` with a global regular expression,
`String.prototype.split` with a regular expression), followed by theorems
about the risk report it produces.

A JavaScript string is a finite sequence of 16-bit code units; regular
expressions without the `u` flag match code unit by code unit.
-/

namespace Analyzer

/-! ## Strings -/

/-- A JavaScript string value: its sequence of UTF-16 code units. -/
abbrev JSString := List Nat

/-- The code units of one Unicode scalar value. -/
def utf16Char (c : Char) : List Nat :=
  if c.toNat < 65536 then [c.toNat]
  else [55296 + (c.toNat - 65536) / 1024, 56320 + (c.toNat - 65536) % 1024]

/-- The JavaScript string written as the given literal. -/
def utf16 (s : String) : JSString :=
  s.toList.flatMap utf16Char

/-- The substring of `S` from index `i` up to (not including) index `e`. -/
def substring (S : JSString) (i e : Nat) : JSString :=
  (S.drop i).take (e - i)

/-! ## Regular expressions

The patterns of the rule table use pattern characters, `\s`, `.` and the
greedy quantifiers `*`, `+`, `?` on a single atom; all of them carry the
flags `gi`. -/

/-- ECMAScript `LineTerminator` code units. -/
def isLineTerminator (ch : Nat) : Bool :=
  ch == 10 || ch == 13 || ch == 8232 || ch == 8233

/-- The code units matched by `\s`: ECMAScript `WhiteSpace` and
`LineTerminator`. -/
def isWhiteSpace (ch : Nat) : Bool :=
  ch == 9 || ch == 11 || ch == 12 || ch == 32 || ch == 160 || ch == 5760 ||
  (8192 ≤ ch && ch ≤ 8202) || ch == 8239 || ch == 8287 || ch == 12288 ||
  ch == 65279 || isLineTerminator ch

/-- ECMAScript `Canonicalize` for a regular expression with `ignoreCase` and
without `unicode`, on the ASCII range. A code unit of 128 or more never
canonicalizes to an ASCII one (the rule "if ch ≥ 128 and cu < 128, return ch"),
and every pattern character of the rule table is ASCII, so comparing against a
pattern character is not affected by leaving such code units unchanged. -/
def canonicalize (ch : Nat) : Nat :=
  if 97 ≤ ch && ch ≤ 122 then ch - 32 else ch

/-- An atom that consumes exactly one code unit. -/
inductive Atom where
  | char (c : Nat)
  | space
  | dot
  deriving DecidableEq, Repr

/-- The quantifier applied to an atom. -/
inductive Quant where
  | one
  | opt
  | star
  | plus
  deriving DecidableEq, Repr

/-- A quantified atom. -/
structure Term where
  atom : Atom
  quant : Quant
  deriving DecidableEq, Repr

/-- The pattern of a regular expression: a sequence of quantified atoms. -/
abbrev Pattern := List Term

/-- Whether an atom accepts a code unit, under the `i` flag. -/
def Atom.accepts : Atom → Nat → Bool
  | .char c, ch => canonicalize ch == canonicalize c
  | .space, ch => isWhiteSpace ch
  | .dot, ch => !isLineTerminator ch

/-- Greedy repetition of a one-code-unit test followed by the continuation
`k`: the longest repetition for which `k` succeeds. The result is the number of
code units consumed. -/
def greedyStar (p : Nat → Bool) (k : JSString → Option Nat) : JSString → Option Nat
  | [] => k []
  | ch :: s =>
    if p ch then
      match greedyStar p k s with
      | some n => some (n + 1)
      | none => k (ch :: s)
    else k (ch :: s)

/-- The backtracking matcher: `matchTerms m s` is the number of code units
consumed by the first successful way (in priority order) of matching `m` at the
start of `s`, or `none` when the pattern does not match there. -/
def matchTerms : Pattern → JSString → Option Nat
  | [] => fun _ => some 0
  | ⟨a, .one⟩ :: rest => fun s =>
    match s with
    | [] => none
    | ch :: s1 => if a.accepts ch then (matchTerms rest s1).map (· + 1) else none
  | ⟨a, .opt⟩ :: rest => fun s =>
    match s with
    | [] => matchTerms rest []
    | ch :: s1 =>
      if a.accepts ch then
        match matchTerms rest s1 with
        | some n => some (n + 1)
        | none => matchTerms rest (ch :: s1)
      else matchTerms rest (ch :: s1)
  | ⟨a, .star⟩ :: rest => greedyStar a.accepts (matchTerms rest)
  | ⟨a, .plus⟩ :: rest => fun s =>
    match s with
    | [] => none
    | ch :: s1 =>
      if a.accepts ch then (greedyStar a.accepts (matchTerms rest) s1).map (· + 1)
      else none

/-- A regular expression object with flags `gi`: its pattern and its mutable
`lastIndex` property. -/
structure RegExp where
  source : Pattern
  lastIndex : Nat
  deriving DecidableEq, Repr

/-- The search loop of `RegExpBuiltinExec`: starting at index `i`, whose suffix
of the subject is the given list, advance one code unit at a time until the
matcher succeeds; the result is the start and end index of the match. -/
def execLoop (m : Pattern) : JSString → Nat → Option (Nat × Nat)
  | [], i => (matchTerms m []).map fun n => (i, i + n)
  | ch :: s, i =>
    match matchTerms m (ch :: s) with
    | some n => some (i, i + n)
    | none => execLoop m s (i + 1)

/-- `RegExpBuiltinExec(R, S)` for a global, non-sticky regular expression: the
match found from `R.lastIndex` on (start and end index), and `R` with its
`lastIndex` set to the end of the match, or to 0 when there is none. -/
def regExpBuiltinExec (R : RegExp) (S : JSString) : Option (Nat × Nat) × RegExp :=
  if R.lastIndex > S.length then (none, { R with lastIndex := 0 })
  else
    match execLoop R.source (S.drop R.lastIndex) R.lastIndex with
    | none => (none, { R with lastIndex := 0 })
    | some (i, e) => (some (i, e), { R with lastIndex := e })

/-- The loop of `RegExp.prototype[@@match]` for a global regular expression,
with `A` the matches collected so far. An empty match advances `lastIndex` by
one. The first argument bounds the number of iterations; `none` means the bound
was reached before the loop ended. The result is `null` (`none`) when no match
was collected, else the array of matched substrings. -/
def matchLoop : Nat → RegExp → JSString → List JSString →
    Option (Option (List JSString) × RegExp)
  | 0, _, _, _ => none
  | fuel + 1, rx, S, A =>
    match regExpBuiltinExec rx S with
    | (none, rx1) => some (if A.length = 0 then none else some A, rx1)
    | (some (i, e), rx1) =>
      let matchStr := substring S i e
      let rx2 : RegExp :=
        if matchStr.length = 0 then { rx1 with lastIndex := rx1.lastIndex + 1 } else rx1
      matchLoop fuel rx2 S (A ++ [matchStr])

/-- The call `S.match(rx)` for a global regular expression `rx`: `lastIndex` is
set to 0 and the loop run. Every iteration but the last moves `lastIndex`
forward, so `S.length + 2` iterations are enough. -/
def stringMatch (S : JSString) (rx : RegExp) : Option (Option (List JSString) × RegExp) :=
  matchLoop (S.length + 2) { rx with lastIndex := 0 } S []

/-- The pattern matching a literal in the source of a regular expression. -/
def lit (s : String) : Pattern :=
  s.toList.map fun c => ⟨.char c.toNat, .one⟩

/-- The term `\s+`. -/
def spaces : Pattern := [⟨.space, .plus⟩]

/-- The term `.*`. -/
def anything : Pattern := [⟨.dot, .star⟩]

/-- The term `.?`. -/
def anyOpt : Pattern := [⟨.dot, .opt⟩]

/-! ## The rule table (`riskPatterns`) -/

/-- One entry of the rule table. -/
structure RiskRule where
  pattern : RegExp
  type : String
  description : String
  deriving DecidableEq, Repr

/-- The rule table: one ordered list of rules for each severity. -/
structure RiskPatterns where
  high : List RiskRule
  medium : List RiskRule
  low : List RiskRule
  deriving DecidableEq, Repr

/-- A rule whose regular expression has just been created (`lastIndex` is 0). -/
def rule (source : Pattern) (type description : String) : RiskRule :=
  { pattern := { source := source, lastIndex := 0 }, type := type, description := description }

/-- The table `riskPatterns` as it is when the module is loaded. -/
def riskPatterns : RiskPatterns where
  high := [
    rule (lit "unlimited" ++ spaces ++ lit "liability") "Unlimited Liability"
      "Contract contains unlimited liability clause",
    rule (lit "indemnify" ++ anything ++ lit "all" ++ spaces ++ lit "claims")
      "Broad Indemnification" "Very broad indemnification obligations",
    rule (lit "auto" ++ anyOpt ++ lit "renew") "Auto-Renewal"
      "Automatic renewal clause detected",
    rule (lit "non" ++ anyOpt ++ lit "compete") "Non-Compete"
      "Non-compete clause may restrict business",
    rule (lit "exclusiv") "Exclusivity" "Exclusivity requirements detected",
    rule (lit "perpetual") "Perpetual Term" "Perpetual or indefinite contract term",
    rule (lit "penalty") "Penalties" "Financial penalties specified"]
  medium := [
    rule (lit "termin" ++ anything ++ lit "30" ++ anything ++ lit "days")
      "Short Termination Notice" "Short notice period for termination",
    rule (lit "without" ++ spaces ++ lit "cause") "Termination Without Cause"
      "Can be terminated without cause",
    rule (lit "confidential") "Confidentiality Requirements"
      "Contains confidentiality obligations",
    rule (lit "audit" ++ spaces ++ lit "right") "Audit Rights" "Vendor has audit rights",
    rule (lit "price" ++ spaces ++ lit "increase") "Price Escalation"
      "Price increase provisions present",
    rule (lit "liability" ++ anything ++ lit "limit") "Liability Limits"
      "Liability limitations present",
    rule (lit "governing" ++ spaces ++ lit "law") "Jurisdiction"
      "Specifies governing law jurisdiction"]
  low := [
    rule (lit "force" ++ spaces ++ lit "majeure") "Force Majeure"
      "Force majeure clause present",
    rule (lit "notice") "Notice Requirements" "Contains notice requirements",
    rule (lit "warranty") "Warranty Limitations" "Warranty terms present",
    rule (lit "insurance") "Insurance Requirements" "Insurance obligations specified",
    rule (lit "dispute") "Dispute Resolution" "Dispute resolution procedures present"]

/-! ## `analyzeRisks` -/

/-- One element of `detectedRisks`. -/
structure RiskFinding where
  type : String
  severity : String
  description : String
  occurrences : Nat
  deriving DecidableEq, Repr

/-- The object returned by `analyzeRisks`. -/
structure RiskReport where
  risks : List RiskFinding
  riskScore : Nat
  riskCount : Nat
  wordCount : Nat
  analysisDate : String
  deriving DecidableEq, Repr

/-- The local variables `detectedRisks` and `totalRiskScore`. -/
abbrev Tally := List RiskFinding × Nat

/-- The body of the callback passed to `forEach` in `analyzeRisks`, for the
tier with the given severity and points: the updated locals and the rule with
the state its regular expression is left in. -/
def checkRisk (severity : String) (points : Nat) (text : JSString) (st : Tally)
    (risk : RiskRule) : Option (Tally × RiskRule) :=
  match stringMatch text risk.pattern with
  | none => none
  | some (found, rx) =>
    let risk1 : RiskRule := { risk with pattern := rx }
    match found with
    | none => some (st, risk1)
    | some ms =>
      if (st.1.find? fun r => r.type == risk.type).isNone then
        some ((st.1 ++ [{ type := risk.type, severity := severity,
                          description := risk.description, occurrences := ms.length }],
               st.2 + points), risk1)
      else some (st, risk1)

/-- The call `rules.forEach(risk => ...)` of one tier. -/
def forEachRisk (severity : String) (points : Nat) (text : JSString) :
    List RiskRule → Tally → Option (Tally × List RiskRule)
  | [], st => some (st, [])
  | risk :: rest, st =>
    match checkRisk severity points text st risk with
    | none => none
    | some (st1, risk1) =>
      match forEachRisk severity points text rest st1 with
      | none => none
      | some (st2, rest1) => some (st2, risk1 :: rest1)

/-- The loop of `RegExp.prototype[@@split]` (no limit, no capture groups): `p`
is the end of the last separator, `q` the index at which the separator is tried
next (sticky), `A` the pieces so far. The first argument bounds the number of
iterations. -/
def splitLoop : Nat → Pattern → JSString → Nat → Nat → List JSString →
    Option (List JSString)
  | 0, _, _, _, _, _ => none
  | fuel + 1, m, S, p, q, A =>
    if q < S.length then
      match matchTerms m (S.drop q) with
      | none => splitLoop fuel m S p (q + 1) A
      | some n =>
        let e := min (q + n) S.length
        if e = p then splitLoop fuel m S p (q + 1) A
        else splitLoop fuel m S e e (A ++ [substring S p q])
    else some (A ++ [substring S p S.length])

/-- The call `S.split(separator)` with a regular expression separator. Every
iteration of the loop moves `q` forward, so `S.length + 1` iterations are
enough. -/
def stringSplit (S : JSString) (separator : Pattern) : Option (List JSString) :=
  if S.length = 0 then
    match matchTerms separator S with
    | some _ => some []
    | none => some [S]
  else splitLoop (S.length + 1) separator S 0 0 []

/-- The function `analyzeRisks(text)`. The rule table is passed in and handed
back, because the regular expressions in it are objects with a mutable
`lastIndex`; `now` is the value of `new Date().toISOString()`. The result is
`none` only if one of the library loops did not end within its bound. -/
def analyzeRisks (now : String) (rp : RiskPatterns) (text : JSString) :
    Option (RiskReport × RiskPatterns) :=
  match forEachRisk "high" 10 text rp.high ([], 0) with
  | none => none
  | some (st1, high1) =>
    match forEachRisk "medium" 5 text rp.medium st1 with
    | none => none
    | some (st2, medium1) =>
      match forEachRisk "low" 2 text rp.low st2 with
      | none => none
      | some (st3, low1) =>
        match stringSplit text spaces with
        | none => none
        | some words =>
          let wordCount := (words.filter fun word => word.length > 0).length
          some ({ risks := st3.1, riskScore := min st3.2 100, riskCount := st3.1.length,
                  wordCount := wordCount, analysisDate := now },
                { high := high1, medium := medium1, low := low1 })

/-! ## Text extraction and `analyzeContract` -/

/-- What the module takes from outside: Node's `path` and `fs`, `mammoth`,
`String.prototype.toLowerCase` and the clock. A failing call is `none`. -/
structure Env where
  /-- The function `path.extname`. -/
  extname : JSString → JSString
  /-- The function `path.basename`. -/
  basename : JSString → JSString
  /-- The method `toLowerCase`. -/
  toLowerCase : JSString → JSString
  /-- The property `fs.statSync(filePath).size`; `none` when `statSync` throws. -/
  statSize : JSString → Option Nat
  /-- The `value` of `mammoth.extractRawText`; `none` when the promise is
  rejected. -/
  extractRawText : JSString → Option JSString
  /-- The value of `new Date().toISOString()` in `extractTextFromPDF`. -/
  isoTime : JSString

/-- The lines of the template literal `sampleText` before its first
interpolation; the literal starts with a line break. -/
def sampleLines : List String := [
    "",
    "      MASTER SERVICE AGREEMENT",
    "      ",
    "      This Agreement contains important terms including:",
    "      ",
    "      1. SERVICES: The vendor shall provide services as described.",
    "      ",
    "      2. TERM: This agreement shall auto-renew annually unless terminated with 30 days notice.",
    "      ",
    "      3. CONFIDENTIALITY: Both parties agree to maintain confidential information.",
    "      ",
    "      4. LIABILITY: Vendor's liability shall be limited to amounts paid under this agreement.",
    "      ",
    "      5. INDEMNIFICATION: Customer shall indemnify vendor against all claims arising from use of services.",
    "      ",
    "      6. TERMINATION: Either party may terminate without cause with written notice.",
    "      ",
    "      7. GOVERNING LAW: This agreement shall be governed by applicable law.",
    "      ",
    "      8. INSURANCE: Vendor shall maintain appropriate insurance coverage.",
    "      ",
    "      9. AUDIT RIGHTS: Customer reserves the right to audit vendor's performance.",
    "      ",
    "      10. FORCE MAJEURE: Neither party liable for delays due to force majeure events.",
    "      ",
    "      11. NOTICES: All notices must be in writing and sent to designated addresses.",
    "      ",
    "      12. WARRANTY: Services provided with standard industry warranties.",
    "      ",
    "      13. PRICE INCREASE: Vendor may increase prices annually with 60 days notice.",
    "      ",
    "      14. DISPUTE RESOLUTION: Disputes shall be resolved through arbitration.",
    "      "]

/-- The value of `sampleText` for a file name, a size and a time. -/
def sampleText (fileName : JSString) (size : Nat) (isoTime : JSString) : JSString :=
  List.intercalate [10] (sampleLines.map utf16) ++
    utf16 "\n      File analyzed: " ++ fileName ++
    utf16 "\n      File size: " ++ utf16 (toString size) ++
    utf16 " bytes\n      Analysis date: " ++ isoTime ++ utf16 "\n    "

/-- The function `extractTextFromPDF`: any failure inside its `try` is thrown
again as one fixed error. -/
def extractTextFromPDF (env : Env) (filePath : JSString) : Except String JSString :=
  match env.statSize filePath with
  | none => .error "Failed to extract text from PDF"
  | some size =>
    let fileName := env.toLowerCase (env.basename filePath)
    .ok (sampleText fileName size env.isoTime)

/-- The text `extractTextFromWord` returns when `mammoth` fails. -/
def wordFallback : JSString :=
  utf16 ("Sample contract text from Word document.\n" ++
    "    Contains confidentiality obligations and notice requirements.\n" ++
    "    Warranty terms are specified. Auto-renewal clause present.")

/-- The function `extractTextFromWord`: it never throws, a failure of `mammoth`
is answered with the fallback text. -/
def extractTextFromWord (env : Env) (filePath : JSString) : JSString :=
  match env.extractRawText filePath with
  | some value => value
  | none => wordFallback

/-- The function `extractText`. -/
def extractText (env : Env) (filePath : JSString) : Except String JSString :=
  let ext := env.toLowerCase (env.extname filePath)
  if ext = utf16 ".pdf" then extractTextFromPDF env filePath
  else if ext = utf16 ".docx" ∨ ext = utf16 ".doc" then .ok (extractTextFromWord env filePath)
  else .error "Unsupported file type"

/-- The object `analyzeContract` resolves to; a property the object does not
have is `none`. -/
structure ContractResult where
  success : Bool
  text : Option JSString
  error : Option String
  risks : List RiskFinding
  riskScore : Nat
  riskCount : Nat
  wordCount : Option Nat
  analysisDate : Option String
  deriving DecidableEq, Repr

/-- The function `analyzeContract` (its log output is left out): the result and
the rule table after the call. -/
def analyzeContract (env : Env) (now : String) (rp : RiskPatterns) (filePath : JSString) :
    Option (ContractResult × RiskPatterns) :=
  match extractText env filePath with
  | .error message =>
    some ({ success := false, text := none, error := some message, risks := [],
            riskScore := 0, riskCount := 0, wordCount := none, analysisDate := none }, rp)
  | .ok text =>
    match analyzeRisks now rp text with
    | none => none
    | some (analysis, rp1) =>
      some ({ success := true, text := some (substring text 0 500), error := none,
              risks := analysis.risks, riskScore := analysis.riskScore,
              riskCount := analysis.riskCount, wordCount := some analysis.wordCount,
              analysisDate := some analysis.analysisDate }, rp1)

/-! ## The dashboard (`ContractsList.js`) -/

/-- The function `getRiskColor`, on integer scores. -/
def getRiskColor (score : Int) : String :=
  if score ≥ 70 then "text-red-600 bg-red-50"
  else if score ≥ 40 then "text-yellow-600 bg-yellow-50"
  else "text-green-600 bg-green-50"

/-! ## Specification-level notions -/

/-- Scan for matches from left to right without looking at `lastIndex`: the
second argument counts the code units still covered by the previous match. A
match is counted where the matcher succeeds outside the previous match, and the
scan resumes after it. -/
def countFrom (m : Pattern) : JSString → Nat → Nat
  | [], 0 => if (matchTerms m []).isSome then 1 else 0
  | [], _ + 1 => 0
  | _ :: s, skip + 1 => countFrom m s skip
  | ch :: s, 0 =>
    match matchTerms m (ch :: s) with
    | some n => 1 + countFrom m s (n - 1)
    | none => countFrom m s 0

/-- The number of non-overlapping matches of the pattern in the text, found left
to right. -/
def countMatches (m : Pattern) (S : JSString) : Nat :=
  countFrom m S 0

/-- The number of matches found from index `i` on. -/
def countAt (m : Pattern) (S : JSString) (i : Nat) : Nat :=
  if i ≤ S.length then countFrom m (S.drop i) 0 else 0

/-- Whether the pattern matches at some index of the text. -/
def hasMatch (m : Pattern) (S : JSString) : Bool :=
  (List.range (S.length + 1)).any fun i => (matchTerms m (S.drop i)).isSome

/-- The value `S.match(rx)` gives for a count of matches: `null` for zero. -/
def finish (A : List JSString) : Option (List JSString) :=
  if A.length = 0 then none else some A

/-- The regular expression with `lastIndex` back at 0. -/
def RegExp.reset (rx : RegExp) : RegExp :=
  { rx with lastIndex := 0 }

/-- The rule with the `lastIndex` of its regular expression back at 0. -/
def RiskRule.reset (risk : RiskRule) : RiskRule :=
  { risk with pattern := risk.pattern.reset }

/-- The rule table with every `lastIndex` back at 0. -/
def RiskPatterns.reset (rp : RiskPatterns) : RiskPatterns :=
  { high := rp.high.map RiskRule.reset, medium := rp.medium.map RiskRule.reset,
    low := rp.low.map RiskRule.reset }

/-- The finding recorded for a rule by the tier with the given severity. -/
def findingOf (severity : String) (text : JSString) (risk : RiskRule) : RiskFinding :=
  { type := risk.type, severity := severity, description := risk.description,
    occurrences := countMatches risk.pattern.source text }

/-- What the callback of `forEach` does to the locals, with the library call
replaced by the left-to-right scan. -/
def tallyStep (severity : String) (points : Nat) (text : JSString) (st : Tally)
    (risk : RiskRule) : Tally :=
  if countMatches risk.pattern.source text = 0 then st
  else if (st.1.find? fun r => r.type == risk.type).isNone then
    (st.1 ++ [findingOf severity text risk], st.2 + points)
  else st

/-- The rules of a tier that have at least one match in the text. -/
def matched (text : JSString) (rules : List RiskRule) : List RiskRule :=
  rules.filter fun r => hasMatch r.pattern.source text

/-- The findings of a tier: one for each rule with a match, in table order. -/
def tierFindings (severity : String) (text : JSString) (rules : List RiskRule) :
    List RiskFinding :=
  (matched text rules).map (findingOf severity text)

/-- The weight of a severity in the score. -/
def weight (severity : String) : Nat :=
  if severity = "high" then 10
  else if severity = "medium" then 5
  else if severity = "low" then 2
  else 0

/-- The rule table flattened as high, then medium, then low, each rule with the
severity of its tier. -/
def allRules (rp : RiskPatterns) : List (String × RiskRule) :=
  rp.high.map (fun r => ("high", r)) ++ rp.medium.map (fun r => ("medium", r)) ++
    rp.low.map (fun r => ("low", r))

/-- For each code unit of `t`, whether a maximal run of non-whitespace code
units starts there: the code unit is not whitespace and the one before it is.
The flag says whether the code unit before `t` counts as whitespace (it does at
the start of the text). -/
def startsRun (prevIsSpace : Bool) (t : JSString) : List Bool :=
  List.zipWith (fun prev ch => prev && !isWhiteSpace ch) (prevIsSpace :: t.map isWhiteSpace) t

/-- The number of maximal runs of non-whitespace code units in the text. -/
def wordRuns (S : JSString) : Nat :=
  (startsRun true S).count true

/-- The report for a text, with the library calls replaced by the left-to-right
scan and the count of runs. -/
def reportOf (now : String) (text : JSString) : RiskReport :=
  let risks := tierFindings "high" text riskPatterns.high ++
    tierFindings "medium" text riskPatterns.medium ++ tierFindings "low" text riskPatterns.low
  { risks := risks,
    riskScore := min (10 * (matched text riskPatterns.high).length +
      5 * (matched text riskPatterns.medium).length +
      2 * (matched text riskPatterns.low).length) 100,
    riskCount := risks.length,
    wordCount := wordRuns text,
    analysisDate := now }

/-- A sequence of calls of `analyzeRisks`, each on the rule table as the call
before left it: the reports in call order and the table after the last call. -/
def analyzeEach : RiskPatterns → List (String × JSString) →
    Option (List RiskReport × RiskPatterns)
  | rp, [] => some ([], rp)
  | rp, (now, text) :: rest =>
    match analyzeRisks now rp text with
    | none => none
    | some (report, rp1) =>
      match analyzeEach rp1 rest with
      | none => none
      | some (reports, rp2) => some (report :: reports, rp2)

/-- The rule table with a match position left in the regular expressions of the
high and the low tier. -/
def staleTable : RiskPatterns :=
  { high := riskPatterns.high.map fun r => { r with pattern := ⟨r.pattern.source, 7⟩ },
    medium := riskPatterns.medium,
    low := riskPatterns.low.map fun r => { r with pattern := ⟨r.pattern.source, 100⟩ } }

/-- Whether two code units are equal or are the two cases of one ASCII letter. -/
def sameUpToAsciiCase (a b : Nat) : Bool :=
  a == b || (65 ≤ a && a ≤ 90 && b == a + 32) || (97 ≤ a && a ≤ 122 && a == b + 32)

/-- The second text is the first with the case of some of its ASCII letters
changed. -/
def CaseVariant (t u : JSString) : Prop :=
  List.Forall₂ (fun a b => sameUpToAsciiCase a b = true) t u

instance (t u : JSString) : Decidable (CaseVariant t u) :=
  inferInstanceAs (Decidable (List.Forall₂ (fun a b => sameUpToAsciiCase a b = true) t u))

/-- Whether text extraction fails for a file: its extension is not supported,
or the file system call (for a PDF) or `mammoth` (for a Word file) fails. -/
def extractionFails (env : Env) (filePath : JSString) : Bool :=
  let ext := env.toLowerCase (env.extname filePath)
  if ext = utf16 ".pdf" then (env.statSize filePath).isNone
  else if ext = utf16 ".docx" ∨ ext = utf16 ".doc" then (env.extractRawText filePath).isNone
  else true

/-- An environment with three uploads: a Word file `mammoth` cannot read, a PDF
that is missing, and a text file. The `path` functions are given on these
three paths, where they agree with Node. -/
def brokenUploads : Env where
  extname := fun p =>
    if p = utf16 "uploads/contract.docx" then utf16 ".docx"
    else if p = utf16 "uploads/contract.pdf" then utf16 ".pdf"
    else if p = utf16 "uploads/notes.txt" then utf16 ".txt"
    else []
  basename := fun p =>
    if p = utf16 "uploads/contract.docx" then utf16 "contract.docx"
    else if p = utf16 "uploads/contract.pdf" then utf16 "contract.pdf"
    else if p = utf16 "uploads/notes.txt" then utf16 "notes.txt"
    else p
  toLowerCase := fun t => t.map fun ch => if 65 ≤ ch ∧ ch ≤ 90 then ch + 32 else ch
  statSize := fun p => if p = utf16 "uploads/contract.pdf" then none else some 2048
  extractRawText := fun _ => none
  isoTime := utf16 "2026-01-01T00:00:00.000Z"

/-- A text in which every rule of the three tiers has a match. -/
def allRulesText : JSString :=
  utf16 ("unlimited liability, indemnify all claims, auto-renew, non-compete, exclusiv, " ++
    "perpetual, penalty\ntermin 30 days, without cause, confidential, audit right, " ++
    "price increase, liability limit, governing law\nforce majeure, notice, warranty, " ++
    "insurance, dispute")

/-- The pattern of a run of pattern characters. -/
def litTerms (cs : List Nat) : Pattern :=
  cs.map fun c => ⟨.char c, .one⟩

/-- Whether the text starts with the given pattern characters, up to case. -/
def startsWithLit : List Nat → JSString → Bool
  | [], _ => true
  | _ :: _, [] => false
  | c :: cs, ch :: s => (Atom.char c).accepts ch && startsWithLit cs s

/-- The number of line terminators in the text. -/
def lineBreaks (S : JSString) : Nat :=
  S.countP isLineTerminator

/-- The text of `n` copies of "notice" separated by single spaces. -/
def noticeText (n : Nat) : JSString :=
  List.intercalate [32] (List.replicate n (utf16 "notice"))

/-- A text with "indemnify all claims", "auto-renew" and "confidential" and
nothing else. -/
def threeRisksText : JSString :=
  utf16 "indemnify all claims auto-renew confidential"

/-- One line with the indemnification phrase twice. -/
def twiceOnOneLine : JSString :=
  utf16 "indemnify all claims and indemnify all claims"

/-- The start of `sampleText`, up to the file name. -/
def sampleHead : JSString :=
  List.intercalate [10] (sampleLines.map utf16) ++ utf16 "\n      File analyzed: "

/-- The part of `sampleText` between the file name and the size. -/
def sizeLabel : JSString :=
  utf16 "\n      File size: "

/-- The part of `sampleText` between the size and the time. -/
def dateLabel : JSString :=
  utf16 " bytes\n      Analysis date: "

/-- The end of `sampleText`. -/
def sampleEnd : JSString :=
  utf16 "\n    "

/-- Whether at every index of `w` the matcher gives the same result on `w`
alone and on `w` followed by `s`. -/
def unaffectedBy (m : Pattern) : JSString → JSString → Bool
  | [], _ => true
  | c :: w, s => (matchTerms m (c :: w ++ s) == matchTerms m (c :: w)) && unaffectedBy m w s

/-- Whether no atom of the pattern accepts the code unit `b`. -/
def rejects (b : Nat) (m : Pattern) : Bool :=
  m.all fun t => !t.atom.accepts b

/-- The code units of a time written by `toISOString` (digits and `-+T:.Z`);
the digits are also the code units of a size. -/
def isoChars : List Nat :=
  [48, 49, 50, 51, 52, 53, 54, 55, 56, 57, 45, 43, 84, 58, 46, 90]

/-- The number of matches the scan counts for each rule, in table order. -/
def counts (text : JSString) : List Nat :=
  (allRules riskPatterns).map fun sr => countMatches sr.2.pattern.source text

/-- Whether a match of the pattern cannot run from a text into a following
line break, spaces and an `F`: either no atom accepts a line feed, or the
pattern is letters and `.*`, then `\s+`, then pattern characters that accept
none of line feed, space and `F`. -/
def crossOK (m : Pattern) : Bool :=
  rejects 10 m ||
    match m.dropWhile (fun t => t.atom != Atom.space) with
    | ⟨.space, .plus⟩ :: tail =>
      rejects 10 (m.takeWhile fun t => t.atom != Atom.space) &&
        (m.takeWhile fun t => t.atom != Atom.space).all
          (fun t => t.quant == Quant.one || t.quant == Quant.star) &&
        rejects 10 tail && rejects 32 tail && rejects 70 tail && (matchTerms tail []).isNone
    | _ => false

/-- Whether the first two terms of the pattern are pattern characters that
cannot match a code unit of `isoChars` followed by another one, a space or a
line feed. -/
def plainOK (m : Pattern) : Bool :=
  match m with
  | ⟨.char c1, .one⟩ :: ⟨.char c2, .one⟩ :: _ =>
    isoChars.all fun ch => (isoChars ++ [32, 10]).all fun nx =>
      !((Atom.char c1).accepts ch && (Atom.char c2).accepts nx)
  | _ => false

/-- The findings for given numbers of matches of the given rules. -/
def findingsFromCounts (rules : List (String × RiskRule)) (cs : List Nat) : List RiskFinding :=
  (rules.zip cs).filterMap fun p =>
    if p.2 = 0 then none
    else some { type := p.1.2.type, severity := p.1.1, description := p.1.2.description,
                occurrences := p.2 }

/-- The numbers of matches of the rules in the fixed part of `sampleText`. -/
def pdfCounts : List Nat :=
  [0, 1, 1, 0, 0, 0, 0, 1, 1, 2, 1, 1, 1, 1, 2, 5, 1, 2, 2]

/-- An environment with one upload, a PDF of 2048 bytes. The `path` functions
are given on its path, where they agree with Node. -/
def pdfUploads : Env where
  extname := fun p => if p = utf16 "uploads/Report.PDF" then utf16 ".PDF" else []
  basename := fun p => if p = utf16 "uploads/Report.PDF" then utf16 "Report.PDF" else p
  toLowerCase := fun t => t.map fun ch => if 65 ≤ ch ∧ ch ≤ 90 then ch + 32 else ch
  statSize := fun p => if p = utf16 "uploads/Report.PDF" then some 2048 else none
  extractRawText := fun _ => none
  isoTime := utf16 "2026-01-01T00:00:00.000Z"

/-! ## The matcher and the search loop -/

set_option maxRecDepth 1000000

theorem greedyStar_le (p : Nat → Bool) (k : JSString → Option Nat)
    (hk : ∀ s n, k s = some n → n ≤ s.length) :
    ∀ s n, greedyStar p k s = some n → n ≤ s.length := by
  intro s
  induction s with
  | nil => intro n h; exact hk _ _ h
  | cons ch s ih =>
    intro n h
    unfold greedyStar at h
    split at h
    · split at h
      · rename_i r hr
        have := ih _ hr
        simp only [Option.some.injEq] at h
        simp only [List.length_cons]; omega
      · exact hk _ _ h
    · exact hk _ _ h

theorem matchTerms_le : ∀ (m : Pattern) (s : JSString) (n : Nat),
    matchTerms m s = some n → n ≤ s.length := by
  intro m
  induction m with
  | nil => intro s n h; simp [matchTerms] at h; omega
  | cons t rest ih =>
    obtain ⟨a, q⟩ := t
    intro s n h
    cases q with
    | one =>
      cases s with
      | nil => simp [matchTerms] at h
      | cons ch s1 =>
        simp only [matchTerms] at h
        split at h
        · simp only [Option.map_eq_some'] at h
          obtain ⟨r, hr, rfl⟩ := h
          have := ih _ _ hr
          simp only [List.length_cons]; omega
        · simp at h
    | opt =>
      cases s with
      | nil => simp only [matchTerms] at h; exact ih _ _ h
      | cons ch s1 =>
        simp only [matchTerms] at h
        split at h
        · split at h
          · rename_i r hr
            have := ih _ _ hr
            simp only [Option.some.injEq] at h
            simp only [List.length_cons]; omega
          · exact ih _ _ h
        · exact ih _ _ h
    | star =>
      simp only [matchTerms] at h
      exact greedyStar_le _ _ ih _ _ h
    | plus =>
      cases s with
      | nil => simp [matchTerms] at h
      | cons ch s1 =>
        simp only [matchTerms] at h
        split at h
        · simp only [Option.map_eq_some'] at h
          obtain ⟨r, hr, rfl⟩ := h
          have := greedyStar_le _ _ ih _ _ hr
          simp only [List.length_cons]; omega
        · simp at h

theorem countFrom_skip (m : Pattern) : ∀ (t : JSString) (k : Nat), k ≤ t.length →
    countFrom m t k = countFrom m (t.drop k) 0 := by
  intro t
  induction t with
  | nil => intro k hk; simp at hk; subst hk; rfl
  | cons ch s ih =>
    intro k hk
    cases k with
    | zero => rfl
    | succ k =>
      simp only [List.length_cons, Nat.add_le_add_iff_right] at hk
      simp only [countFrom, List.drop_succ_cons]
      exact ih k hk

/-- What the search loop finds, in terms of the left-to-right scan. -/
theorem execLoop_spec (m : Pattern) : ∀ (t : JSString) (i : Nat),
    match execLoop m t i with
    | none => countFrom m t 0 = 0
    | some (j, e) => i ≤ j ∧ j ≤ i + t.length ∧ j ≤ e ∧ e ≤ i + t.length ∧
        countFrom m t 0 = 1 + (if j + max (e - j) 1 ≤ i + t.length
          then countFrom m (t.drop (j + max (e - j) 1 - i)) 0 else 0) := by
  intro t
  induction t with
  | nil =>
    intro i
    simp only [execLoop]
    cases h : matchTerms m [] with
    | none => simp [countFrom, h]
    | some n =>
      have hn := matchTerms_le _ _ _ h
      simp only [List.length_nil, Nat.le_zero_eq] at hn
      subst hn
      simp [countFrom, h]
  | cons ch s ih =>
    intro i
    simp only [execLoop]
    cases h : matchTerms m (ch :: s) with
    | none =>
      simp only [countFrom, h]
      have := ih (i + 1)
      split at this
      · exact this
      · rename_i j e h1
        obtain ⟨h2, h3, h4, h5, h6⟩ := this
        refine ⟨by omega, by simp only [List.length_cons]; omega, h4,
          by simp only [List.length_cons]; omega, ?_⟩
        rw [h6]
        simp only [List.length_cons]
        have e1 : i + 1 + s.length = i + (s.length + 1) := by omega
        rw [e1]
        split
        · rename_i h7
          have e2 : j + max (e - j) 1 - i = (j + max (e - j) 1 - (i + 1)) + 1 := by omega
          rw [e2, List.drop_succ_cons]
        · rfl
    | some n =>
      have hn := matchTerms_le _ _ _ h
      simp only [List.length_cons] at hn
      simp only [countFrom, h, List.length_cons]
      refine ⟨le_refl _, by omega, by omega, by omega, ?_⟩
      have e0 : i + n - i = n := by omega
      rw [e0]
      by_cases hmax : i + max n 1 ≤ i + (s.length + 1)
      · rw [if_pos hmax]
        have e2 : i + max n 1 - i = (max n 1 - 1) + 1 := by omega
        rw [e2, List.drop_succ_cons]
        have e3 : max n 1 - 1 = n - 1 := by omega
        rw [e3, countFrom_skip m s (n - 1) (by omega)]
      · omega

theorem length_substring (S : JSString) (i e : Nat) (h : e ≤ S.length) :
    (substring S i e).length = e - i := by
  simp only [substring, List.length_take, List.length_drop]
  omega

/-- The match loop ends within its bound, leaves `lastIndex` at 0 and collects
as many matches as the left-to-right scan counts. -/
theorem matchLoop_spec (m : Pattern) (S : JSString) : ∀ (d i fuel : Nat) (A : List JSString),
    S.length + 1 - i ≤ d → d + 1 ≤ fuel →
    ∃ L, matchLoop fuel ⟨m, i⟩ S A = some (finish (A ++ L), ⟨m, 0⟩) ∧
      L.length = countAt m S i := by
  intro d
  induction d with
  | zero =>
    intro i fuel A hd hf
    obtain ⟨f, rfl⟩ : ∃ f, fuel = f + 1 := ⟨fuel - 1, by omega⟩
    have hi : i > S.length := by omega
    refine ⟨[], ?_, ?_⟩
    · simp [matchLoop, regExpBuiltinExec, hi, finish]
    · simp only [countAt, if_neg (Nat.not_le.mpr hi), List.length_nil]
  | succ d ih =>
    intro i fuel A hd hf
    obtain ⟨f, rfl⟩ : ∃ f, fuel = f + 1 := ⟨fuel - 1, by omega⟩
    by_cases hi : i > S.length
    · refine ⟨[], ?_, ?_⟩
      · simp [matchLoop, regExpBuiltinExec, hi, finish]
      · simp only [countAt, if_neg (Nat.not_le.mpr hi), List.length_nil]
    · have hi1 : i ≤ S.length := by omega
      have hspec := execLoop_spec m (S.drop i) i
      have hlen : i + (S.drop i).length = S.length := by
        simp only [List.length_drop]; omega
      rw [hlen] at hspec
      cases hx : execLoop m (S.drop i) i with
      | none =>
        rw [hx] at hspec
        refine ⟨[], ?_, ?_⟩
        · simp [matchLoop, regExpBuiltinExec, hi, hx, finish]
        · simp only [countAt, if_pos hi1, hspec, List.length_nil]
      | some je =>
        obtain ⟨j, e⟩ := je
        rw [hx] at hspec
        obtain ⟨h1, h2, h3, h4, h5⟩ := hspec
        have hsub := length_substring S j e h4
        obtain ⟨L, hL, hcount⟩ := ih (j + max (e - j) 1) f (A ++ [substring S j e])
          (by omega) (by omega)
        refine ⟨substring S j e :: L, ?_, ?_⟩
        · simp only [matchLoop, regExpBuiltinExec, hi, if_false, hx, hsub]
          have hrx : (if e - j = 0 then ({ source := m, lastIndex := e + 1 } : RegExp)
              else { source := m, lastIndex := e }) = ⟨m, j + max (e - j) 1⟩ := by
            split
            · congr 1; omega
            · congr 1; omega
          rw [hrx, hL]
          simp
        · simp only [List.length_cons, hcount, countAt, if_pos hi1, h5, List.drop_drop]
          by_cases h6 : j + max (e - j) 1 ≤ S.length
          · simp only [if_pos h6]
            have e1 : i + (j + max (e - j) 1 - i) = j + max (e - j) 1 := by omega
            rw [e1, Nat.add_comm]
          · simp only [if_neg h6]

/-- The call `S.match(rx)` always returns: `null` when the scan counts no match,
else an array with one entry for each match counted; `lastIndex` is 0 after the
call, whatever it was before. -/
theorem stringMatch_spec (S : JSString) (rx : RegExp) :
    ∃ L, stringMatch S rx = some (finish L, ⟨rx.source, 0⟩) ∧
      L.length = countMatches rx.source S := by
  obtain ⟨L, hL, hc⟩ := matchLoop_spec rx.source S (S.length + 1) 0 (S.length + 2) []
    (by omega) (by omega)
  refine ⟨L, ?_, ?_⟩
  · simpa [stringMatch] using hL
  · simpa [countAt, countMatches] using hc

theorem countFrom_eq_zero_iff (m : Pattern) : ∀ t : JSString,
    countFrom m t 0 = 0 ↔ ∀ i, i ≤ t.length → matchTerms m (t.drop i) = none := by
  intro t
  induction t with
  | nil =>
    simp only [countFrom, List.length_nil, Nat.le_zero_eq, forall_eq, List.drop_nil]
    cases matchTerms m [] <;> simp
  | cons ch s ih =>
    cases h : matchTerms m (ch :: s) with
    | some n =>
      simp only [countFrom, h]
      constructor
      · intro h0; omega
      · intro h0
        have := h0 0 (Nat.zero_le _)
        simp [h] at this
    | none =>
      simp only [countFrom, h, ih, List.length_cons]
      constructor
      · intro h0 i hi
        cases i with
        | zero => simpa using h
        | succ i => simpa using h0 i (by omega)
      · intro h0 i hi
        simpa using h0 (i + 1) (by omega)

theorem hasMatch_iff (m : Pattern) (S : JSString) :
    hasMatch m S = true ↔ ∃ i, i ≤ S.length ∧ (matchTerms m (S.drop i)).isSome = true := by
  simp only [hasMatch, List.any_eq_true, List.mem_range]
  constructor
  · rintro ⟨i, hi, h⟩; exact ⟨i, by omega, h⟩
  · rintro ⟨i, hi, h⟩; exact ⟨i, by omega, h⟩

/-- The scan counts a match exactly when the pattern matches somewhere. -/
theorem countMatches_pos_iff (m : Pattern) (S : JSString) :
    0 < countMatches m S ↔ hasMatch m S = true := by
  rw [hasMatch_iff, Nat.pos_iff_ne_zero, Ne, countMatches, countFrom_eq_zero_iff]
  constructor
  · intro h
    by_contra hc
    apply h
    intro i hi
    cases hm : matchTerms m (S.drop i) with
    | none => rfl
    | some n => exact absurd ⟨i, hi, by simp [hm]⟩ hc
  · rintro ⟨i, hi, h⟩ h0
    simp [h0 i hi] at h

theorem countMatches_eq_zero_iff (m : Pattern) (S : JSString) :
    countMatches m S = 0 ↔ hasMatch m S = false := by
  have := countMatches_pos_iff m S
  cases h : hasMatch m S
  · simp only [h] at this
    constructor
    · intro _; rfl
    · intro _; by_contra hc; exact absurd (this.mp (Nat.pos_of_ne_zero hc)) (by simp)
  · simp only [h] at this
    have := this.mpr trivial
    constructor
    · intro h0; omega
    · intro h0; simp at h0

/-! ## The tiers -/

theorem checkRisk_eq (severity : String) (points : Nat) (text : JSString) (st : Tally)
    (risk : RiskRule) :
    checkRisk severity points text st risk =
      some (tallyStep severity points text st risk, risk.reset) := by
  obtain ⟨L, hL, hc⟩ := stringMatch_spec text risk.pattern
  simp only [checkRisk, hL, tallyStep, findingOf, ← hc, finish]
  by_cases h0 : L.length = 0
  · simp only [h0, if_true]
    rfl
  · simp only [h0, if_false]
    split
    · rfl
    · rfl

theorem forEachRisk_eq (severity : String) (points : Nat) (text : JSString) :
    ∀ (rules : List RiskRule) (st : Tally),
      forEachRisk severity points text rules st =
        some (rules.foldl (tallyStep severity points text) st, rules.map RiskRule.reset) := by
  intro rules
  induction rules with
  | nil => intro st; rfl
  | cons risk rest ih =>
    intro st
    simp only [forEachRisk, checkRisk_eq, ih, List.foldl_cons, List.map_cons]

theorem foldl_tallyStep (severity : String) (points : Nat) (text : JSString) :
    ∀ (rules : List RiskRule) (st : Tally), (rules.map (·.type)).Nodup →
      (∀ r ∈ rules, ∀ f ∈ st.1, f.type ≠ r.type) →
      rules.foldl (tallyStep severity points text) st =
        (st.1 ++ tierFindings severity text rules,
          st.2 + points * (matched text rules).length) := by
  intro rules
  induction rules with
  | nil => intro st _ _; simp [tierFindings, matched]
  | cons r rest ih =>
    intro st hnd hst
    simp only [List.map_cons, List.nodup_cons, List.mem_map, not_exists, not_and] at hnd
    obtain ⟨hr, hrest⟩ := hnd
    simp only [List.foldl_cons]
    by_cases h0 : countMatches r.pattern.source text = 0
    · have hm : hasMatch r.pattern.source text = false := (countMatches_eq_zero_iff _ _).mp h0
      have hstep : tallyStep severity points text st r = st := by simp [tallyStep, h0]
      rw [hstep, ih st hrest (fun r1 h1 => hst r1 (List.mem_cons_of_mem _ h1))]
      simp [tierFindings, matched, List.filter_cons, hm]
    · have hm : hasMatch r.pattern.source text = true :=
        (countMatches_pos_iff _ _).mp (Nat.pos_of_ne_zero h0)
      have hfind : (st.1.find? fun f => f.type == r.type) = none := by
        rw [List.find?_eq_none]
        intro f hf
        simpa using hst r (List.mem_cons_self _ _) f hf
      have hstep : tallyStep severity points text st r =
          (st.1 ++ [findingOf severity text r], st.2 + points) := by
        simp [tallyStep, h0, hfind]
      rw [hstep, ih _ hrest]
      · simp only [tierFindings, matched, List.filter_cons, hm, if_true, List.map_cons,
          List.length_cons, List.append_assoc, List.singleton_append, Nat.mul_add,
          Nat.mul_one, Prod.mk.injEq, true_and]
        omega
      · intro r1 h1 f hf
        simp only [List.mem_append, List.mem_singleton] at hf
        rcases hf with hf | rfl
        · exact hst r1 (List.mem_cons_of_mem _ h1) f hf
        · intro heq
          exact hr r1 h1 heq.symm

theorem matched_reset (text : JSString) (rules : List RiskRule) :
    matched text (rules.map RiskRule.reset) = (matched text rules).map RiskRule.reset := by
  induction rules with
  | nil => rfl
  | cons r rest ih =>
    simp only [matched, List.map_cons, List.filter_cons] at ih ⊢
    have : (RiskRule.reset r).pattern.source = r.pattern.source := rfl
    rw [this, ih]
    split <;> simp

theorem tierFindings_reset (severity : String) (text : JSString) (rules : List RiskRule) :
    tierFindings severity text (rules.map RiskRule.reset) = tierFindings severity text rules := by
  simp only [tierFindings, matched_reset, List.map_map]
  rfl

/-! ## Splitting on whitespace -/

theorem startsRun_nil (b : Bool) : startsRun b [] = [] := rfl

theorem startsRun_cons (b : Bool) (ch : Nat) (s : JSString) :
    startsRun b (ch :: s) = (b && !isWhiteSpace ch) :: startsRun (isWhiteSpace ch) s := rfl

theorem startsRun_space (b : Bool) (ch : Nat) (s : JSString) (h : isWhiteSpace ch = true) :
    (startsRun b (ch :: s)).count true = (startsRun true s).count true := by
  simp [startsRun_cons, h]

theorem startsRun_drop_spaces : ∀ (k : Nat) (s : JSString),
    (∀ c ∈ s.take k, isWhiteSpace c = true) →
    (startsRun true (s.drop k)).count true = (startsRun true s).count true := by
  intro k
  induction k with
  | zero => intro s _; rfl
  | succ k ih =>
    intro s h
    cases s with
    | nil => rfl
    | cons c s1 =>
      simp only [List.take_succ_cons, List.mem_cons, forall_eq_or_imp] at h
      rw [List.drop_succ_cons, ih s1 h.2, startsRun_space true c s1 h.1]

theorem greedyStar_spaces : ∀ s : JSString, ∃ k,
    greedyStar isWhiteSpace (fun _ => some 0) s = some k ∧ k ≤ s.length ∧
      ∀ c ∈ s.take k, isWhiteSpace c = true := by
  intro s
  induction s with
  | nil => exact ⟨0, rfl, le_refl _, by simp⟩
  | cons ch s ih =>
    obtain ⟨k, hk, hle, hall⟩ := ih
    by_cases hws : isWhiteSpace ch = true
    · refine ⟨k + 1, ?_, by simp only [List.length_cons]; omega, ?_⟩
      · simp [greedyStar, hws, hk]
      · intro c hc
        simp only [List.take_succ_cons, List.mem_cons] at hc
        rcases hc with rfl | hc
        · exact hws
        · exact hall c hc
    · exact ⟨0, by simp [greedyStar, hws], Nat.zero_le _, by simp⟩

/-- The separator `\s+` at the start of `ch :: s`: it fails on a non-whitespace
code unit, and else consumes whitespace only. -/
theorem matchTerms_spaces (ch : Nat) (s : JSString) :
    (isWhiteSpace ch = false ∧ matchTerms spaces (ch :: s) = none) ∨
    (isWhiteSpace ch = true ∧ ∃ k, matchTerms spaces (ch :: s) = some (k + 1) ∧
      k ≤ s.length ∧ ∀ c ∈ s.take k, isWhiteSpace c = true) := by
  cases hws : isWhiteSpace ch
  · left
    exact ⟨rfl, by simp [spaces, matchTerms, Atom.accepts, hws]⟩
  · right
    obtain ⟨k, hk, hle, hall⟩ := greedyStar_spaces s
    refine ⟨rfl, k, ?_, hle, hall⟩
    have hfun : matchTerms [] = fun _ => some 0 := by
      funext x; simp [matchTerms]
    have hacc : Atom.accepts Atom.space = isWhiteSpace := by
      funext x; rfl
    simp [spaces, matchTerms, hfun, hacc, hws, hk]

theorem filter_append_singleton (A : List JSString) (w : JSString) :
    ((A ++ [w]).filter fun word => decide (word.length > 0)).length =
      (A.filter fun word => decide (word.length > 0)).length +
        (if 0 < w.length then 1 else 0) := by
  simp only [List.filter_append, List.length_append, List.filter_cons, List.filter_nil]
  split <;> simp_all

/-- The split loop ends within its bound; the non-empty pieces it adds are the
piece being scanned, if it has a code unit, and one for each run that starts
later. -/
theorem splitLoop_spec (S : JSString) : ∀ (d fuel p q : Nat) (A : List JSString),
    S.length - q ≤ d → d + 1 ≤ fuel → p ≤ q → q ≤ S.length →
    ∃ R, splitLoop fuel spaces S p q A = some R ∧
      (R.filter fun word => decide (word.length > 0)).length =
        (A.filter fun word => decide (word.length > 0)).length +
          (if p < q then 1 else 0) +
          (startsRun (decide (p = q)) (S.drop q)).count true := by
  intro d
  induction d with
  | zero =>
    intro fuel p q A hd hf hpq hq
    obtain ⟨f, rfl⟩ : ∃ f, fuel = f + 1 := ⟨fuel - 1, by omega⟩
    have hq1 : q = S.length := by omega
    subst hq1
    refine ⟨A ++ [substring S p S.length], ?_, ?_⟩
    · simp [splitLoop]
    · rw [filter_append_singleton, length_substring S p S.length (le_refl _)]
      simp only [List.drop_length, startsRun_nil, List.count_nil, Nat.add_zero]
      congr 1
      by_cases h : p < S.length
      · simp [h]
      · simp [h]
  | succ d ih =>
    intro fuel p q A hd hf hpq hq
    obtain ⟨f, rfl⟩ : ∃ f, fuel = f + 1 := ⟨fuel - 1, by omega⟩
    by_cases hq1 : q = S.length
    · subst hq1
      refine ⟨A ++ [substring S p S.length], ?_, ?_⟩
      · simp [splitLoop]
      · rw [filter_append_singleton, length_substring S p S.length (le_refl _)]
        simp only [List.drop_length, startsRun_nil, List.count_nil, Nat.add_zero]
        congr 1
        by_cases h : p < S.length
        · simp [h]
        · simp [h]
    · have hlt : q < S.length := by omega
      obtain ⟨ch, s, hdrop⟩ : ∃ ch s, S.drop q = ch :: s := by
        cases h : S.drop q with
        | nil =>
          have := congrArg List.length h
          simp only [List.length_drop, List.length_nil] at this
          omega
        | cons ch s => exact ⟨ch, s, rfl⟩
      have hslen : s.length + 1 = S.length - q := by
        have := congrArg List.length hdrop
        simp only [List.length_drop, List.length_cons] at this
        omega
      have hs : s = S.drop (q + 1) := by
        have := congrArg (List.drop 1) hdrop
        simpa [List.drop_drop, Nat.add_comm] using this.symm
      rcases matchTerms_spaces ch s with ⟨hws, hm⟩ | ⟨hws, k, hm, hk, hall⟩
      · obtain ⟨R, hR, hcount⟩ := ih f p (q + 1) A (by omega) (by omega) (by omega) (by omega)
        refine ⟨R, ?_, ?_⟩
        · simp only [splitLoop, if_pos hlt, hdrop, hm]
          exact hR
        · rw [hcount, hdrop, startsRun_cons, ← hs]
          have h1 : decide (p = q + 1) = false := by simp; omega
          have h2 : (p < q + 1) := by omega
          rw [h1, if_pos h2]
          simp only [hws, Bool.not_false, Bool.and_true]
          by_cases hpq1 : p = q
          · subst hpq1
            simp only [lt_self_iff_false, if_false, decide_True, List.count_cons_self]
            omega
          · have h3 : p < q := by omega
            simp [h3, hpq1]
      · have he : min (q + (k + 1)) S.length = q + (k + 1) := by omega
        have hne : ¬ (q + (k + 1) = p) := by omega
        obtain ⟨R, hR, hcount⟩ := ih f (q + (k + 1)) (q + (k + 1)) (A ++ [substring S p q])
          (by omega) (by omega) (le_refl _) (by omega)
        refine ⟨R, ?_, ?_⟩
        · simp only [splitLoop, if_pos hlt, hdrop, hm, he, if_neg hne]
          exact hR
        · rw [hcount, filter_append_singleton, length_substring S p q hq, hdrop,
            startsRun_space _ ch s hws]
          have hd2 : S.drop (q + (k + 1)) = s.drop k := by
            rw [hs, List.drop_drop]
            congr 1
            omega
          rw [hd2]
          simp only [lt_self_iff_false, if_false, decide_True, Nat.add_zero,
            startsRun_drop_spaces k s hall]
          congr 2
          by_cases h : p < q
          · simp [h]
          · simp [h]

/-- The call `text.split(/\s+/)` always returns, and its non-empty pieces are
as many as the maximal runs of non-whitespace code units. -/
theorem stringSplit_spec (S : JSString) :
    ∃ words, stringSplit S spaces = some words ∧
      (words.filter fun word => decide (word.length > 0)).length = wordRuns S := by
  cases S with
  | nil => exact ⟨[[]], by simp [stringSplit, spaces, matchTerms], by simp [wordRuns, startsRun_nil]⟩
  | cons ch s =>
    obtain ⟨R, hR, hcount⟩ := splitLoop_spec (ch :: s) ((ch :: s).length)
      ((ch :: s).length + 1) 0 0 [] (by omega) (by omega) (le_refl _) (Nat.zero_le _)
    refine ⟨R, ?_, ?_⟩
    · simp only [stringSplit, List.length_cons, Nat.add_one_ne_zero, if_false]
      exact hR
    · rw [hcount]
      simp [wordRuns]

theorem wordRuns_eq_zero_iff : ∀ S : JSString,
    wordRuns S = 0 ↔ ∀ ch ∈ S, isWhiteSpace ch = true := by
  intro S
  induction S with
  | nil => simp [wordRuns, startsRun_nil]
  | cons ch s ih =>
    unfold wordRuns at ih ⊢
    cases hws : isWhiteSpace ch
    · simp [startsRun_cons, hws]
    · rw [startsRun_space true ch s hws, ih]
      simp [hws]

/-! ## The whole analysis -/

theorem types_reset (rules : List RiskRule) :
    (rules.map RiskRule.reset).map (·.type) = rules.map (·.type) := by
  simp only [List.map_map]
  rfl

theorem type_mem_of_tierFindings (severity : String) (text : JSString) (rules : List RiskRule)
    (f : RiskFinding) (hf : f ∈ tierFindings severity text rules) :
    f.type ∈ rules.map (·.type) := by
  simp only [tierFindings, matched, List.mem_map, List.mem_filter] at hf ⊢
  obtain ⟨r, ⟨hr, _⟩, rfl⟩ := hf
  exact ⟨r, hr, rfl⟩

theorem types_disjoint :
    (∀ a ∈ riskPatterns.high.map (·.type), ∀ b ∈ riskPatterns.medium.map (·.type), a ≠ b) ∧
    (∀ a ∈ riskPatterns.high.map (·.type), ∀ b ∈ riskPatterns.low.map (·.type), a ≠ b) ∧
    (∀ a ∈ riskPatterns.medium.map (·.type), ∀ b ∈ riskPatterns.low.map (·.type), a ≠ b) := by
  decide

theorem types_nodup : ((allRules riskPatterns).map (·.2.type)).Nodup := by
  decide

theorem tier_types_nodup :
    (riskPatterns.high.map (·.type)).Nodup ∧ (riskPatterns.medium.map (·.type)).Nodup ∧
      (riskPatterns.low.map (·.type)).Nodup := by
  decide

/-- From the rule table in any state of its `lastIndex` properties,
`analyzeRisks` returns the report of the left-to-right scan and leaves every
`lastIndex` at 0. -/
theorem analyzeRisks_eq (now : String) (rp : RiskPatterns) (text : JSString)
    (hrp : rp.reset = riskPatterns) :
    analyzeRisks now rp text = some (reportOf now text, riskPatterns) := by
  have hH : rp.high.map RiskRule.reset = riskPatterns.high := congrArg RiskPatterns.high hrp
  have hM : rp.medium.map RiskRule.reset = riskPatterns.medium :=
    congrArg RiskPatterns.medium hrp
  have hL : rp.low.map RiskRule.reset = riskPatterns.low := congrArg RiskPatterns.low hrp
  have tH : rp.high.map (·.type) = riskPatterns.high.map (·.type) := by
    rw [← hH, types_reset]
  have tM : rp.medium.map (·.type) = riskPatterns.medium.map (·.type) := by
    rw [← hM, types_reset]
  have tL : rp.low.map (·.type) = riskPatterns.low.map (·.type) := by
    rw [← hL, types_reset]
  have fH : ∀ sev, tierFindings sev text rp.high = tierFindings sev text riskPatterns.high := by
    intro sev; rw [← hH, tierFindings_reset]
  have fM : ∀ sev, tierFindings sev text rp.medium = tierFindings sev text riskPatterns.medium := by
    intro sev; rw [← hM, tierFindings_reset]
  have fL : ∀ sev, tierFindings sev text rp.low = tierFindings sev text riskPatterns.low := by
    intro sev; rw [← hL, tierFindings_reset]
  have lH : (matched text rp.high).length = (matched text riskPatterns.high).length := by
    rw [← hH, matched_reset, List.length_map]
  have lM : (matched text rp.medium).length = (matched text riskPatterns.medium).length := by
    rw [← hM, matched_reset, List.length_map]
  have lL : (matched text rp.low).length = (matched text riskPatterns.low).length := by
    rw [← hL, matched_reset, List.length_map]
  obtain ⟨dHM, dHL, dML⟩ := types_disjoint
  obtain ⟨nH, nM, nL⟩ := tier_types_nodup
  have e1 := foldl_tallyStep "high" 10 text rp.high ([], 0) (by rw [tH]; exact nH)
    (by intro r _ f hf; simp at hf)
  have e2 := foldl_tallyStep "medium" 5 text rp.medium
    ([] ++ tierFindings "high" text rp.high, 0 + 10 * (matched text rp.high).length)
    (by rw [tM]; exact nM)
    (by
      intro r hr f hf
      simp only [List.nil_append] at hf
      have h1 := type_mem_of_tierFindings _ _ _ _ hf
      rw [tH] at h1
      have h2 : r.type ∈ rp.medium.map (·.type) := List.mem_map_of_mem _ hr
      rw [tM] at h2
      exact dHM _ h1 _ h2)
  have e3 := foldl_tallyStep "low" 2 text rp.low
    ([] ++ tierFindings "high" text rp.high ++ tierFindings "medium" text rp.medium,
      0 + 10 * (matched text rp.high).length + 5 * (matched text rp.medium).length)
    (by rw [tL]; exact nL)
    (by
      intro r hr f hf
      simp only [List.nil_append, List.mem_append] at hf
      have h2 : r.type ∈ rp.low.map (·.type) := List.mem_map_of_mem _ hr
      rw [tL] at h2
      rcases hf with hf | hf
      · have h1 := type_mem_of_tierFindings _ _ _ _ hf
        rw [tH] at h1
        exact dHL _ h1 _ h2
      · have h1 := type_mem_of_tierFindings _ _ _ _ hf
        rw [tM] at h1
        exact dML _ h1 _ h2)
  obtain ⟨words, hw, hwc⟩ := stringSplit_spec text
  simp only [List.nil_append, Nat.zero_add] at e1 e2 e3
  simp only [analyzeRisks, forEachRisk_eq, e1, e2, e3, hw, hwc, hH, hM, hL]
  simp only [fH, fM, fL, lH, lM, lL]
  rfl

theorem risks_reportOf (now : String) (text : JSString) :
    (reportOf now text).risks =
      ((allRules riskPatterns).filter fun sr => hasMatch sr.2.pattern.source text).map
        fun sr => findingOf sr.1 text sr.2 := by
  simp only [reportOf, tierFindings, matched, allRules, List.filter_append, List.map_append,
    List.filter_map, List.map_map]
  rfl

theorem weights_tierFindings (severity : String) (text : JSString) (rules : List RiskRule) :
    ((tierFindings severity text rules).map fun f => weight f.severity).sum =
      weight severity * (matched text rules).length := by
  simp only [tierFindings, List.map_map]
  induction matched text rules with
  | nil => rfl
  | cons r rest ih =>
    simp only [List.map_cons, List.sum_cons, List.length_cons, ih, Function.comp, findingOf]
    rw [Nat.mul_add, Nat.mul_one, Nat.add_comm]

theorem weights_reportOf (now : String) (text : JSString) :
    ((reportOf now text).risks.map fun f => weight f.severity).sum =
      10 * (matched text riskPatterns.high).length +
        5 * (matched text riskPatterns.medium).length +
        2 * (matched text riskPatterns.low).length := by
  simp only [reportOf, List.map_append, List.sum_append, weights_tierFindings]
  rfl

theorem riskScore_reportOf (now : String) (text : JSString) :
    (reportOf now text).riskScore =
      min 100 (((reportOf now text).risks.map fun f => weight f.severity).sum) := by
  rw [weights_reportOf, Nat.min_comm]
  rfl

theorem riskCount_reportOf (now : String) (text : JSString) :
    (reportOf now text).riskCount = (reportOf now text).risks.length := rfl

theorem rule_eq_of_type_eq (sr1 sr2 : String × RiskRule) (h1 : sr1 ∈ allRules riskPatterns)
    (h2 : sr2 ∈ allRules riskPatterns) (h : sr1.2.type = sr2.2.type) : sr1 = sr2 :=
  List.inj_on_of_nodup_map types_nodup h1 h2 h

theorem mem_risks_reportOf (now : String) (text : JSString) (f : RiskFinding) :
    f ∈ (reportOf now text).risks ↔
      ∃ sr ∈ allRules riskPatterns, hasMatch sr.2.pattern.source text = true ∧
        f = findingOf sr.1 text sr.2 := by
  rw [risks_reportOf]
  simp only [List.mem_map, List.mem_filter]
  constructor
  · rintro ⟨sr, ⟨h1, h2⟩, rfl⟩; exact ⟨sr, h1, h2, rfl⟩
  · rintro ⟨sr, h1, h2, rfl⟩; exact ⟨sr, ⟨h1, h2⟩, rfl⟩

theorem startsRun_spaces_only : ∀ (w : JSString) (b : Bool),
    (∀ c ∈ w, isWhiteSpace c = true) → (startsRun b w).count true = 0 := by
  intro w
  induction w with
  | nil => intro b _; rfl
  | cons c w ih =>
    intro b h
    simp only [List.mem_cons, forall_eq_or_imp] at h
    rw [startsRun_space b c w h.1]
    exact ih true h.2

theorem startsRun_trailing (w : JSString) (hw : ∀ c ∈ w, isWhiteSpace c = true) :
    ∀ (S : JSString) (b : Bool),
      (startsRun b (S ++ w)).count true = (startsRun b S).count true := by
  intro S
  induction S with
  | nil => intro b; simp [startsRun_spaces_only w b hw, startsRun_nil]
  | cons c S ih =>
    intro b
    simp only [List.cons_append, startsRun_cons, List.count_cons, ih]

theorem startsRun_repeated (c : Nat) (w b : JSString) (hc : isWhiteSpace c = true)
    (hw : ∀ x ∈ w, isWhiteSpace x = true) :
    ∀ (a : JSString) (f : Bool),
      (startsRun f (a ++ c :: (w ++ b))).count true =
        (startsRun f (a ++ c :: b)).count true := by
  intro a
  induction a with
  | nil =>
    intro f
    simp only [List.nil_append]
    rw [startsRun_space f c _ hc, startsRun_space f c _ hc]
    have := startsRun_drop_spaces w.length (w ++ b) (by simpa using hw)
    simpa using this.symm
  | cons x a ih =>
    intro f
    simp only [List.cons_append, startsRun_cons, List.count_cons, ih]

theorem wordRuns_leading (w S : JSString) (hw : ∀ c ∈ w, isWhiteSpace c = true) :
    wordRuns (w ++ S) = wordRuns S := by
  have := startsRun_drop_spaces w.length (w ++ S) (by simpa using hw)
  simpa [wordRuns] using this.symm

theorem triples_reportOf (now : String) (text : JSString) :
    ((reportOf now text).risks.map fun f => (f.type, f.severity, f.description)) =
      ((allRules riskPatterns).filter fun sr => hasMatch sr.2.pattern.source text).map
        fun sr => (sr.2.type, sr.1, sr.2.description) := by
  rw [risks_reportOf, List.map_map]
  rfl

theorem weights_of_triples (risks : List RiskFinding) :
    (risks.map fun f => weight f.severity) =
      (risks.map fun f => (f.type, f.severity, f.description)).map fun t => weight t.2.1 := by
  rw [List.map_map]
  rfl

/-- Any call of `analyzeRisks` returns, whatever the table passed in. -/
theorem analyzeRisks_isSome (now : String) (rp : RiskPatterns) (text : JSString) :
    ∃ report rp1, analyzeRisks now rp text = some (report, rp1) := by
  obtain ⟨words, hw, _⟩ := stringSplit_spec text
  simp only [analyzeRisks, forEachRisk_eq, hw]
  exact ⟨_, _, rfl⟩

theorem riskPatterns_reset : riskPatterns.reset = riskPatterns := by
  decide

theorem analyzeEach_eq : ∀ calls : List (String × JSString),
    ∃ reports, analyzeEach riskPatterns calls = some (reports, riskPatterns) ∧
      reports.length = calls.length := by
  intro calls
  induction calls with
  | nil => exact ⟨[], rfl, rfl⟩
  | cons c rest ih =>
    obtain ⟨now, text⟩ := c
    obtain ⟨reports, hr, hlen⟩ := ih
    refine ⟨reportOf now text :: reports, ?_, by simp [hlen]⟩
    simp only [analyzeEach, analyzeRisks_eq now riskPatterns text riskPatterns_reset, hr]

/-! ## Case of ASCII letters -/

theorem sameUpToAsciiCase_spec (a b : Nat) (h : sameUpToAsciiCase a b = true) :
    canonicalize a = canonicalize b ∧ isWhiteSpace a = isWhiteSpace b ∧
      isLineTerminator a = isLineTerminator b := by
  simp only [sameUpToAsciiCase, Bool.or_eq_true, Bool.and_eq_true, beq_iff_eq,
    decide_eq_true_eq] at h
  rcases h with (rfl | ⟨⟨h1, h2⟩, rfl⟩) | ⟨⟨h1, h2⟩, rfl⟩
  · exact ⟨rfl, rfl, rfl⟩
  · refine ⟨?_, ?_, ?_⟩
    · simp only [canonicalize, Bool.and_eq_true, decide_eq_true_eq]
      rw [if_neg (by omega), if_pos (by omega)]
      omega
    · have e1 : isWhiteSpace a = false := by
        simp only [isWhiteSpace, isLineTerminator, Bool.or_eq_false_iff, Bool.and_eq_false_iff,
          beq_eq_false_iff_ne, decide_eq_false_iff_not]
        omega
      have e2 : isWhiteSpace (a + 32) = false := by
        simp only [isWhiteSpace, isLineTerminator, Bool.or_eq_false_iff, Bool.and_eq_false_iff,
          beq_eq_false_iff_ne, decide_eq_false_iff_not]
        omega
      rw [e1, e2]
    · have e1 : isLineTerminator a = false := by
        simp only [isLineTerminator, Bool.or_eq_false_iff, beq_eq_false_iff_ne]
        omega
      have e2 : isLineTerminator (a + 32) = false := by
        simp only [isLineTerminator, Bool.or_eq_false_iff, beq_eq_false_iff_ne]
        omega
      rw [e1, e2]
  · refine ⟨?_, ?_, ?_⟩
    · simp only [canonicalize, Bool.and_eq_true, decide_eq_true_eq]
      rw [if_pos (by omega), if_neg (by omega)]
      omega
    · have e1 : isWhiteSpace b = false := by
        simp only [isWhiteSpace, isLineTerminator, Bool.or_eq_false_iff, Bool.and_eq_false_iff,
          beq_eq_false_iff_ne, decide_eq_false_iff_not]
        omega
      have e2 : isWhiteSpace (b + 32) = false := by
        simp only [isWhiteSpace, isLineTerminator, Bool.or_eq_false_iff, Bool.and_eq_false_iff,
          beq_eq_false_iff_ne, decide_eq_false_iff_not]
        omega
      rw [e1, e2]
    · have e1 : isLineTerminator b = false := by
        simp only [isLineTerminator, Bool.or_eq_false_iff, beq_eq_false_iff_ne]
        omega
      have e2 : isLineTerminator (b + 32) = false := by
        simp only [isLineTerminator, Bool.or_eq_false_iff, beq_eq_false_iff_ne]
        omega
      rw [e1, e2]

theorem accepts_caseVariant (x : Atom) (a b : Nat) (h : sameUpToAsciiCase a b = true) :
    x.accepts a = x.accepts b := by
  obtain ⟨h1, h2, h3⟩ := sameUpToAsciiCase_spec a b h
  cases x with
  | char c => simp only [Atom.accepts, h1]
  | space => simp only [Atom.accepts, h2]
  | dot => simp only [Atom.accepts, h3]

theorem greedyStar_caseVariant (x : Atom) (k : JSString → Option Nat)
    (hk : ∀ t u, CaseVariant t u → k t = k u) :
    ∀ t u, CaseVariant t u → greedyStar x.accepts k t = greedyStar x.accepts k u := by
  intro t u h
  induction h with
  | nil => rfl
  | @cons a b t1 u1 hab hrest ih =>
    have hcons : CaseVariant (a :: t1) (b :: u1) := List.Forall₂.cons hab hrest
    simp only [greedyStar, accepts_caseVariant x a b hab, ih, hk _ _ hcons]

theorem matchTerms_caseVariant : ∀ (m : Pattern) (t u : JSString), CaseVariant t u →
    matchTerms m t = matchTerms m u := by
  intro m
  induction m with
  | nil => intro t u _; simp [matchTerms]
  | cons x rest ih =>
    obtain ⟨a, q⟩ := x
    intro t u h
    cases q with
    | one =>
      cases h with
      | nil => simp [matchTerms]
      | cons hab hrest => simp only [matchTerms, accepts_caseVariant a _ _ hab, ih _ _ hrest]
    | opt =>
      cases h with
      | nil => simp [matchTerms]
      | @cons c d t1 u1 hab hrest =>
        have hcons : CaseVariant (c :: t1) (d :: u1) := List.Forall₂.cons hab hrest
        simp only [matchTerms, accepts_caseVariant a _ _ hab, ih _ _ hrest, ih _ _ hcons]
    | star =>
      simp only [matchTerms]
      exact greedyStar_caseVariant a _ ih t u h
    | plus =>
      cases h with
      | nil => simp [matchTerms]
      | cons hab hrest =>
        simp only [matchTerms, accepts_caseVariant a _ _ hab,
          greedyStar_caseVariant a _ ih _ _ hrest]

theorem countFrom_caseVariant (m : Pattern) : ∀ (t u : JSString), CaseVariant t u →
    ∀ k, countFrom m t k = countFrom m u k := by
  intro t u h
  induction h with
  | nil => intro k; rfl
  | @cons a b t1 u1 hab hrest ih =>
    intro k
    have hcons : CaseVariant (a :: t1) (b :: u1) := List.Forall₂.cons hab hrest
    cases k with
    | zero => simp only [countFrom, matchTerms_caseVariant m _ _ hcons, ih]
    | succ k => simp only [countFrom, ih]

theorem caseVariant_drop : ∀ (t u : JSString), CaseVariant t u →
    ∀ i, CaseVariant (t.drop i) (u.drop i) := by
  intro t u h
  induction h with
  | nil => intro i; simp only [List.drop_nil]; exact List.Forall₂.nil
  | @cons a b t1 u1 hab hrest ih =>
    intro i
    cases i with
    | zero => exact List.Forall₂.cons hab hrest
    | succ i => simpa using ih i

theorem hasMatch_caseVariant (m : Pattern) (t u : JSString) (h : CaseVariant t u) :
    hasMatch m t = hasMatch m u := by
  have hlen : t.length = u.length := List.Forall₂.length_eq h
  simp only [hasMatch, hlen]
  congr 1
  funext i
  rw [matchTerms_caseVariant m _ _ (caseVariant_drop t u h i)]

theorem startsRun_caseVariant : ∀ (t u : JSString), CaseVariant t u →
    ∀ b, startsRun b t = startsRun b u := by
  intro t u h
  induction h with
  | nil => intro b; rfl
  | @cons a c t1 u1 hab hrest ih =>
    intro b
    obtain ⟨_, h2, _⟩ := sameUpToAsciiCase_spec a c hab
    simp only [startsRun_cons, h2, ih]

theorem tierFindings_caseVariant (severity : String) (rules : List RiskRule)
    (t u : JSString) (h : CaseVariant t u) :
    tierFindings severity t rules = tierFindings severity u rules := by
  have hm : matched t rules = matched u rules := by
    simp only [matched]
    apply List.filter_congr
    intro r _
    exact hasMatch_caseVariant _ t u h
  simp only [tierFindings, hm]
  apply List.map_congr_left
  intro r _
  simp only [findingOf, countMatches, countFrom_caseVariant _ t u h]

theorem reportOf_caseVariant (now : String) (t u : JSString) (h : CaseVariant t u) :
    reportOf now t = reportOf now u := by
  have hm : ∀ rules, matched t rules = matched u rules := by
    intro rules
    simp only [matched]
    apply List.filter_congr
    intro r _
    exact hasMatch_caseVariant _ t u h
  simp only [reportOf, tierFindings_caseVariant _ _ t u h, hm, wordRuns,
    startsRun_caseVariant t u h]

/-! ## Reports of given texts and counts by severity -/

theorem reportOf_now (now : String) (text : JSString) :
    reportOf now text = { reportOf "" text with analysisDate := now } := rfl

theorem matched_length_le (text : JSString) (rules : List RiskRule) :
    (matched text rules).length ≤ rules.length :=
  List.length_filter_le _ _

theorem filter_severity_tierFindings (severity wanted : String) (text : JSString)
    (rules : List RiskRule) :
    (tierFindings severity text rules).filter (fun f => decide (f.severity = wanted)) =
      if severity = wanted then tierFindings severity text rules else [] := by
  have hsev : ∀ f ∈ tierFindings severity text rules, f.severity = severity := by
    intro f hf
    simp only [tierFindings, List.mem_map] at hf
    obtain ⟨r, _, rfl⟩ := hf
    rfl
  by_cases h : severity = wanted
  · rw [if_pos h, List.filter_eq_self]
    intro f hf
    simp only [hsev f hf, h, decide_True]
  · rw [if_neg h, List.filter_eq_nil_iff]
    intro f hf
    simp only [hsev f hf, h, decide_False, Bool.false_eq_true, not_false_eq_true]

theorem high_reportOf (now : String) (text : JSString) :
    ((reportOf now text).risks.filter fun f => decide (f.severity = "high")).length =
      (matched text riskPatterns.high).length := by
  simp only [reportOf, List.filter_append, filter_severity_tierFindings]
  simp [tierFindings]

theorem riskScore_reportOf_tiers (now : String) (text : JSString) :
    (reportOf now text).riskScore =
      min (10 * (matched text riskPatterns.high).length +
        5 * (matched text riskPatterns.medium).length +
        2 * (matched text riskPatterns.low).length) 100 := rfl

/-! ## Literal prefixes and greedy repetition -/

theorem matchTerms_litTerms (rest : Pattern) : ∀ (cs : List Nat) (s : JSString),
    matchTerms (litTerms cs ++ rest) s =
      if startsWithLit cs s then (matchTerms rest (s.drop cs.length)).map (· + cs.length)
      else none := by
  intro cs
  induction cs with
  | nil =>
    intro s
    simp only [litTerms, List.map_nil, List.nil_append, startsWithLit, if_true, List.length_nil,
      List.drop_zero, Nat.add_zero]
    cases matchTerms rest s <;> rfl
  | cons c cs ih =>
    intro s
    cases s with
    | nil => simp [litTerms, matchTerms, startsWithLit]
    | cons ch s1 =>
      have hl : litTerms (c :: cs) ++ rest = ⟨.char c, .one⟩ :: (litTerms cs ++ rest) := rfl
      rw [hl]
      simp only [matchTerms, startsWithLit, ih, List.length_cons, List.drop_succ_cons]
      by_cases h1 : (Atom.char c).accepts ch = true
      · simp only [h1, if_true, Bool.true_and]
        by_cases h2 : startsWithLit cs s1 = true
        · simp only [h2, if_true, Option.map_map]
          congr 1
        · simp only [h2, Bool.false_eq_true, if_false, Option.map_none']
      · simp only [h1, Bool.false_eq_true, if_false, Bool.false_and]

theorem startsWithLit_append (cs : List Nat) (b : JSString) :
    startsWithLit cs (cs ++ b) = true := by
  induction cs with
  | nil => rfl
  | cons c cs ih =>
    show ((Atom.char c).accepts c && startsWithLit cs (cs ++ b)) = true
    simp only [Atom.accepts, beq_self_eq_true, ih, Bool.and_self]

theorem greedyStar_isSome_of_k (p : Nat → Bool) (k : JSString → Option Nat) (s : JSString)
    (h : (k s).isSome = true) : (greedyStar p k s).isSome = true := by
  cases s with
  | nil => simpa [greedyStar] using h
  | cons ch s1 =>
    simp only [greedyStar]
    split
    · split
      · rfl
      · exact h
    · exact h

/-- Greedy repetition succeeds whenever some repetition count does. -/
theorem greedyStar_isSome_of_split (p : Nat → Bool) (k : JSString → Option Nat) :
    ∀ (a b : JSString), (∀ c ∈ a, p c = true) → (k b).isSome = true →
      (greedyStar p k (a ++ b)).isSome = true := by
  intro a
  induction a with
  | nil => intro b _ hk; exact greedyStar_isSome_of_k p k b hk
  | cons c a ih =>
    intro b ha hk
    simp only [List.mem_cons, forall_eq_or_imp] at ha
    have := ih b ha.2 hk
    simp only [List.cons_append, greedyStar, ha.1, if_true]
    cases hg : greedyStar p k (a ++ b) with
    | none => simp [hg] at this
    | some n => rfl

/-- When greedy repetition succeeds, some repetition count does. -/
theorem greedyStar_sound (p : Nat → Bool) (k : JSString → Option Nat) :
    ∀ s : JSString, (greedyStar p k s).isSome = true →
      ∃ j, j ≤ s.length ∧ (∀ c ∈ s.take j, p c = true) ∧ (k (s.drop j)).isSome = true := by
  intro s
  induction s with
  | nil => intro h; exact ⟨0, le_refl _, by simp, by simpa [greedyStar] using h⟩
  | cons ch s1 ih =>
    intro h
    simp only [greedyStar] at h
    by_cases hp : p ch = true
    · simp only [hp, if_true] at h
      cases hg : greedyStar p k s1 with
      | none =>
        simp only [hg] at h
        exact ⟨0, Nat.zero_le _, by simp, by simpa using h⟩
      | some n =>
        obtain ⟨j, hj, hall, hk⟩ := ih (by simp [hg])
        refine ⟨j + 1, by simp only [List.length_cons]; omega, ?_, by simpa using hk⟩
        intro c hc
        simp only [List.take_succ_cons, List.mem_cons] at hc
        rcases hc with rfl | hc
        · exact hp
        · exact hall c hc
    · simp only [hp, Bool.false_eq_true, if_false] at h
      exact ⟨0, Nat.zero_le _, by simp, by simpa using h⟩

/-- Greedy repetition consumes at least as much as any repetition count that
works. -/
theorem greedyStar_ge (p : Nat → Bool) (k : JSString → Option Nat) :
    ∀ (s : JSString) (r : Nat), greedyStar p k s = some r →
      ∀ j, j ≤ s.length → (∀ c ∈ s.take j, p c = true) → (k (s.drop j)).isSome = true →
        j ≤ r := by
  intro s
  induction s with
  | nil =>
    intro r _ j hj _ _
    simp only [List.length_nil, Nat.le_zero_eq] at hj
    omega
  | cons ch s1 ih =>
    intro r h j hj hall hk
    cases j with
    | zero => exact Nat.zero_le _
    | succ j =>
      simp only [List.take_succ_cons, List.mem_cons, forall_eq_or_imp] at hall
      simp only [List.drop_succ_cons] at hk
      simp only [List.length_cons, Nat.add_le_add_iff_right] at hj
      simp only [greedyStar, hall.1, if_true] at h
      cases hg : greedyStar p k s1 with
      | none =>
        have hsome := greedyStar_isSome_of_split p k (s1.take j) (s1.drop j) hall.2 hk
        rw [List.take_append_drop, hg] at hsome
        simp at hsome
      | some n =>
        simp only [hg, Option.some.injEq] at h
        have := ih n hg j hj hall.2 hk
        omega

/-! ## Texts that contain a phrase -/

theorem hasMatch_of_drop (m : Pattern) (a w : JSString)
    (h : (matchTerms m w).isSome = true) : hasMatch m (a ++ w) = true := by
  rw [hasMatch_iff]
  exact ⟨a.length, by simp, by simpa using h⟩

theorem matchTerms_nil (s : JSString) : matchTerms [] s = some 0 := by
  simp only [matchTerms]

theorem matchTerms_opt_of_rest (a : Atom) (rest : Pattern) (ch : Nat) (s1 : JSString) (n : Nat)
    (hacc : a.accepts ch = true) (hr : matchTerms rest s1 = some n) :
    matchTerms (⟨a, .opt⟩ :: rest) (ch :: s1) = some (n + 1) := by
  simp only [matchTerms, hacc, if_true, hr]

theorem matchTerms_plus_isSome (a : Atom) (rest : Pattern) (ch : Nat) (s1 : JSString)
    (hacc : a.accepts ch = true)
    (hg : (greedyStar a.accepts (matchTerms rest) s1).isSome = true) :
    (matchTerms (⟨a, .plus⟩ :: rest) (ch :: s1)).isSome = true := by
  simp only [matchTerms, hacc, if_true, Option.isSome_map', hg]

theorem matchTerms_star (a : Atom) (rest : Pattern) (s : JSString) :
    matchTerms (⟨a, .star⟩ :: rest) s = greedyStar a.accepts (matchTerms rest) s := by
  simp only [matchTerms]

theorem matchTerms_litTerms_append (cs : List Nat) (rest : Pattern) (b : JSString) :
    matchTerms (litTerms cs ++ rest) (cs ++ b) = (matchTerms rest b).map (· + cs.length) := by
  rw [matchTerms_litTerms, startsWithLit_append, if_pos rfl, List.drop_left]

theorem hasMatch_confidential (text : JSString) (h : utf16 "confidential" <:+: text) :
    hasMatch (lit "confidential") text = true := by
  obtain ⟨a, b, rfl⟩ := h
  rw [List.append_assoc a]
  apply hasMatch_of_drop
  have hp : lit "confidential" = litTerms (utf16 "confidential") ++ [] := by decide
  rw [hp, matchTerms_litTerms_append, matchTerms_nil]
  rfl

theorem hasMatch_autoRenew (text : JSString) (h : utf16 "auto-renew" <:+: text) :
    hasMatch (lit "auto" ++ anyOpt ++ lit "renew") text = true := by
  obtain ⟨a, b, rfl⟩ := h
  rw [List.append_assoc a]
  apply hasMatch_of_drop
  have hp : lit "auto" ++ anyOpt ++ lit "renew" =
      litTerms (utf16 "auto") ++ (⟨.dot, .opt⟩ :: (litTerms (utf16 "renew") ++ [])) := by decide
  have ht : utf16 "auto-renew" ++ b = utf16 "auto" ++ (45 :: (utf16 "renew" ++ b)) := by
    have : utf16 "auto-renew" = utf16 "auto" ++ (45 :: utf16 "renew") := by decide
    rw [this]; simp
  have hr : matchTerms (litTerms (utf16 "renew") ++ []) (utf16 "renew" ++ b) =
      some (0 + (utf16 "renew").length) := by
    rw [matchTerms_litTerms_append, matchTerms_nil]
    rfl
  rw [hp, ht, matchTerms_litTerms_append,
    matchTerms_opt_of_rest Atom.dot _ 45 _ _ (by decide) hr]
  rfl

theorem hasMatch_indemnify (text : JSString) (h : utf16 "indemnify all claims" <:+: text) :
    hasMatch (lit "indemnify" ++ anything ++ lit "all" ++ spaces ++ lit "claims") text = true := by
  obtain ⟨a, b, rfl⟩ := h
  rw [List.append_assoc a]
  apply hasMatch_of_drop
  have hp : lit "indemnify" ++ anything ++ lit "all" ++ spaces ++ lit "claims" =
      litTerms (utf16 "indemnify") ++ (⟨.dot, .star⟩ ::
        (litTerms (utf16 "all") ++ (⟨.space, .plus⟩ :: (litTerms (utf16 "claims") ++ [])))) := by
    decide
  have ht : utf16 "indemnify all claims" ++ b =
      utf16 "indemnify" ++ ([32] ++ (utf16 "all" ++ (32 :: (utf16 "claims" ++ b)))) := by
    have : utf16 "indemnify all claims" =
        utf16 "indemnify" ++ ([32] ++ (utf16 "all" ++ (32 :: utf16 "claims"))) := by decide
    rw [this]; simp
  have hc : (matchTerms (litTerms (utf16 "claims") ++ []) (utf16 "claims" ++ b)).isSome = true := by
    rw [matchTerms_litTerms_append, matchTerms_nil]
    rfl
  have hall : (matchTerms (litTerms (utf16 "all") ++
      (⟨.space, .plus⟩ :: (litTerms (utf16 "claims") ++ [])))
      (utf16 "all" ++ (32 :: (utf16 "claims" ++ b)))).isSome = true := by
    rw [matchTerms_litTerms_append, Option.isSome_map']
    exact matchTerms_plus_isSome Atom.space _ 32 _ (by decide)
      (greedyStar_isSome_of_k _ _ _ hc)
  rw [hp, ht, matchTerms_litTerms_append, Option.isSome_map', matchTerms_star]
  apply greedyStar_isSome_of_split
  · intro c hc1
    simp only [List.mem_singleton] at hc1
    subst hc1
    decide
  · exact hall

/-- Reports of texts in which the same rules have a match. -/
theorem reportOf_same_matches (nowA nowB : String) (tA tB : JSString)
    (hsame : ∀ sr ∈ allRules riskPatterns,
      hasMatch sr.2.pattern.source tA = hasMatch sr.2.pattern.source tB) :
    ((reportOf nowA tA).risks.map fun f => (f.type, f.severity, f.description)) =
        ((reportOf nowB tB).risks.map fun f => (f.type, f.severity, f.description)) ∧
      (reportOf nowA tA).riskScore = (reportOf nowB tB).riskScore ∧
      (reportOf nowA tA).riskCount = (reportOf nowB tB).riskCount := by
  have htr : ((reportOf nowA tA).risks.map fun f => (f.type, f.severity, f.description)) =
      ((reportOf nowB tB).risks.map fun f => (f.type, f.severity, f.description)) := by
    rw [triples_reportOf, triples_reportOf]
    congr 1
    apply List.filter_congr
    intro sr hsr
    exact hsame sr hsr
  refine ⟨htr, ?_, ?_⟩
  · rw [riskScore_reportOf, riskScore_reportOf, weights_of_triples, weights_of_triples, htr]
  · rw [riskCount_reportOf, riskCount_reportOf]
    have := congrArg List.length htr
    simpa using this

/-! ## Copies of "notice" -/

theorem noticeText_one : noticeText 1 = utf16 "notice" := by decide

theorem noticeText_succ_succ (n : Nat) :
    noticeText (n + 2) = utf16 "notice " ++ noticeText (n + 1) := by
  have h : utf16 "notice " = utf16 "notice" ++ [32] := by decide
  rw [h]
  simp [noticeText, List.intercalate, List.replicate, List.intersperse]

theorem noticeText_head (n : Nat) : ∃ tl, noticeText (n + 1) = utf16 "notice" ++ tl := by
  cases n with
  | zero => exact ⟨[], by rw [noticeText_one]; simp⟩
  | succ n =>
    refine ⟨[32] ++ noticeText (n + 1), ?_⟩
    rw [noticeText_succ_succ]
    have h : utf16 "notice " = utf16 "notice" ++ [32] := by decide
    rw [h]; simp

theorem countFrom_notice_step (s : JSString) :
    countFrom (lit "notice") (utf16 "notice " ++ s) 0 = 1 + countFrom (lit "notice") s 0 := by
  rfl

theorem countMatches_notice : ∀ n, countMatches (lit "notice") (noticeText (n + 1)) = n + 1 := by
  intro n
  induction n with
  | zero => decide
  | succ n ih =>
    unfold countMatches at ih ⊢
    rw [noticeText_succ_succ, countFrom_notice_step, ih]
    omega

theorem others_fail_in_notice (tl : JSString) :
    (allRules riskPatterns).all (fun sr =>
      sr.2.type == "Notice Requirements" ||
        (List.range 7).all fun i =>
          (matchTerms sr.2.pattern.source
            ((utf16 "notice ").drop i ++ (utf16 "notice" ++ tl))).isNone) = true := by
  rfl

theorem hasMatch_eq_false_iff (m : Pattern) (S : JSString) :
    hasMatch m S = false ↔ ∀ i, i ≤ S.length → matchTerms m (S.drop i) = none := by
  rw [← countMatches_eq_zero_iff, countMatches, countFrom_eq_zero_iff]

theorem hasMatch_append_false (m : Pattern) (w s : JSString)
    (hw : ∀ i, i < w.length → matchTerms m (w.drop i ++ s) = none)
    (hs : hasMatch m s = false) : hasMatch m (w ++ s) = false := by
  rw [hasMatch_eq_false_iff] at hs ⊢
  intro i hi
  by_cases h : i < w.length
  · rw [List.drop_append_of_le_length (Nat.le_of_lt h)]
    exact hw i h
  · have h1 : w.length ≤ i := Nat.le_of_not_lt h
    simp only [List.length_append] at hi
    rw [List.drop_append_eq_append_drop, List.drop_eq_nil_of_le h1, List.nil_append]
    exact hs _ (by omega)

theorem others_no_match_in_notice : ∀ n, ∀ sr ∈ allRules riskPatterns,
    sr.2.type ≠ "Notice Requirements" →
      hasMatch sr.2.pattern.source (noticeText (n + 1)) = false := by
  intro n
  induction n with
  | zero => decide
  | succ n ih =>
    intro sr hsr hty
    obtain ⟨tl, htl⟩ := noticeText_head n
    rw [noticeText_succ_succ]
    apply hasMatch_append_false _ _ _ _ (ih sr hsr hty)
    intro i hi
    have hall := others_fail_in_notice tl
    rw [List.all_eq_true] at hall
    have h1 := hall sr hsr
    have hne : (sr.2.type == "Notice Requirements") = false := by
      simpa using hty
    rw [hne, Bool.false_or, List.all_eq_true] at h1
    have hlen : (utf16 "notice ").length = 7 := by decide
    have h2 := h1 i (List.mem_range.mpr (by omega))
    rw [htl]
    simpa using h2

/-! ## Patterns with `.*`: one match for each line -/

theorem not_lineTerminator_of_accepts (c ch : Nat)
    (hc : 65 ≤ canonicalize c ∧ canonicalize c ≤ 90)
    (h : (Atom.char c).accepts ch = true) : isLineTerminator ch = false := by
  simp only [Atom.accepts, beq_iff_eq] at h
  rw [← h] at hc
  simp only [isLineTerminator, Bool.or_eq_false_iff, beq_eq_false_iff_ne]
  unfold canonicalize at hc
  split at hc
  · rename_i h1
    simp only [Bool.and_eq_true, decide_eq_true_eq] at h1
    omega
  · omega

theorem startsWithLit_not_lineTerminator : ∀ (cs : List Nat) (s : JSString),
    (∀ c ∈ cs, 65 ≤ canonicalize c ∧ canonicalize c ≤ 90) → startsWithLit cs s = true →
      cs.length ≤ s.length ∧ ∀ ch ∈ s.take cs.length, isLineTerminator ch = false := by
  intro cs
  induction cs with
  | nil => intro s _ _; exact ⟨Nat.zero_le _, by simp⟩
  | cons c cs ih =>
    intro s hcs h
    cases s with
    | nil => simp [startsWithLit] at h
    | cons ch s1 =>
      simp only [startsWithLit, Bool.and_eq_true] at h
      simp only [List.mem_cons, forall_eq_or_imp] at hcs
      obtain ⟨hlen, hall⟩ := ih s1 hcs.2 h.2
      refine ⟨by simp only [List.length_cons]; omega, ?_⟩
      intro x hx
      simp only [List.length_cons, List.take_succ_cons, List.mem_cons] at hx
      rcases hx with rfl | hx
      · exact not_lineTerminator_of_accepts c _ hcs.1 h.1
      · exact hall x hx

theorem matchTerms_litTerms_some (cs : List Nat) (rest : Pattern) (s : JSString) (n : Nat)
    (h : matchTerms (litTerms cs ++ rest) s = some n) :
    startsWithLit cs s = true ∧
      ∃ r, matchTerms rest (s.drop cs.length) = some r ∧ n = r + cs.length := by
  rw [matchTerms_litTerms] at h
  by_cases hs : startsWithLit cs s = true
  · rw [if_pos hs, Option.map_eq_some'] at h
    obtain ⟨r, hr, rfl⟩ := h
    exact ⟨hs, r, hr, rfl⟩
  · rw [if_neg hs] at h
    exact absurd h (by simp)

/-- A pattern that starts with letters followed by `.*`: when it matches at
the start of `s`, and also at a later index `j` with no line terminator before
`j`, the first match reaches beyond `j`. -/
theorem later_match_inside (cs : List Nat) (tail : Pattern)
    (hcs : ∀ c ∈ cs, 65 ≤ canonicalize c ∧ canonicalize c ≤ 90) (hne : 1 ≤ cs.length)
    (s : JSString) (j n : Nat)
    (hm : matchTerms (litTerms cs ++ ⟨.dot, .star⟩ :: tail) s = some n)
    (hj : j ≤ s.length) (hline : ∀ c ∈ s.take j, isLineTerminator c = false)
    (hlater : (matchTerms (litTerms cs ++ ⟨.dot, .star⟩ :: tail) (s.drop j)).isSome = true) :
    j < n := by
  obtain ⟨hs0, r, hr, rfl⟩ := matchTerms_litTerms_some cs _ s n hm
  rw [matchTerms_star] at hr
  obtain ⟨n2, hn2⟩ := Option.isSome_iff_exists.mp hlater
  obtain ⟨hs1, r2, hr2, _⟩ := matchTerms_litTerms_some cs _ (s.drop j) n2 hn2
  rw [matchTerms_star] at hr2
  obtain ⟨hlen1, hlit1⟩ := startsWithLit_not_lineTerminator cs (s.drop j) hcs hs1
  obtain ⟨j2, hj2, hdots, hk⟩ := greedyStar_sound Atom.dot.accepts (matchTerms tail)
    ((s.drop j).drop cs.length) (by rw [hr2]; rfl)
  simp only [List.length_drop] at hlen1 hj2
  have hge := greedyStar_ge Atom.dot.accepts (matchTerms tail) (s.drop cs.length) r hr (j + j2)
    (by simp only [List.length_drop]; omega)
    (by
      intro c hc
      have hmem : c ∈ s.take (cs.length + (j + j2)) := by
        rw [List.take_add]
        exact List.mem_append_right _ hc
      have e : cs.length + (j + j2) = j + (cs.length + j2) := by omega
      rw [e, List.take_add, List.take_add] at hmem
      simp only [List.mem_append] at hmem
      have hnot : isLineTerminator c = false := by
        rcases hmem with h | h | h
        · exact hline c h
        · exact hlit1 c h
        · have := hdots c h
          simpa [Atom.accepts] using this
      simp [Atom.accepts, hnot])
    (by
      have e : (s.drop cs.length).drop (j + j2) = ((s.drop j).drop cs.length).drop j2 := by
        simp only [List.drop_drop]
        congr 1
        omega
      rw [e]; exact hk)
  omega

theorem lineBreaks_cons (c : Nat) (s : JSString) :
    lineBreaks (c :: s) = lineBreaks s + if isLineTerminator c = true then 1 else 0 := by
  simp only [lineBreaks, List.countP_cons]

theorem lineBreaks_take_drop (n : Nat) (s : JSString) :
    lineBreaks s = lineBreaks (s.take n) + lineBreaks (s.drop n) := by
  simp only [lineBreaks]
  rw [← List.countP_append, List.take_append_drop]

theorem lineBreaks_pos (s : JSString) (h : ¬ ∀ c ∈ s, isLineTerminator c = false) :
    1 ≤ lineBreaks s := by
  simp only [not_forall, Bool.not_eq_false] at h
  obtain ⟨c, hc, hlt⟩ := h
  exact List.countP_pos_iff.mpr ⟨c, hc, hlt⟩

/-- A pattern that starts with letters followed by `.*` is counted at most
once for each line, and not at all on a first line without a match. -/
theorem countFrom_le_lines (cs : List Nat) (tail : Pattern)
    (hcs : ∀ c ∈ cs, 65 ≤ canonicalize c ∧ canonicalize c ≤ 90) (hne : 1 ≤ cs.length) :
    ∀ (len : Nat) (s : JSString), s.length ≤ len →
      countFrom (litTerms cs ++ ⟨.dot, .star⟩ :: tail) s 0 ≤ lineBreaks s + 1 ∧
      ((∀ j, j ≤ s.length → (∀ c ∈ s.take j, isLineTerminator c = false) →
          matchTerms (litTerms cs ++ ⟨.dot, .star⟩ :: tail) (s.drop j) = none) →
        countFrom (litTerms cs ++ ⟨.dot, .star⟩ :: tail) s 0 ≤ lineBreaks s) := by
  intro len
  induction len with
  | zero =>
    intro s hs
    have : s = [] := List.eq_nil_of_length_eq_zero (by omega)
    subst this
    have hnil : matchTerms (litTerms cs ++ ⟨.dot, .star⟩ :: tail) [] = none := by
      rw [matchTerms_litTerms]
      cases cs with
      | nil => simp at hne
      | cons c cs => simp [startsWithLit]
    simp [countFrom, hnil, lineBreaks]
  | succ len ih =>
    intro s hs
    cases s with
    | nil =>
      have hnil : matchTerms (litTerms cs ++ ⟨.dot, .star⟩ :: tail) [] = none := by
        rw [matchTerms_litTerms]
        cases cs with
        | nil => simp at hne
        | cons c cs => simp [startsWithLit]
      simp [countFrom, hnil, lineBreaks]
    | cons c s1 =>
      simp only [List.length_cons, Nat.add_le_add_iff_right] at hs
      constructor
      · cases hm : matchTerms (litTerms cs ++ ⟨.dot, .star⟩ :: tail) (c :: s1) with
        | none =>
          simp only [countFrom, hm]
          have := (ih s1 hs).1
          rw [lineBreaks_cons]
          omega
        | some n =>
          have hnle := matchTerms_le _ _ _ hm
          simp only [List.length_cons] at hnle
          obtain ⟨_, r, _, hnr⟩ := matchTerms_litTerms_some cs _ _ n hm
          have hn1 : 1 ≤ n := by omega
          simp only [countFrom, hm]
          rw [countFrom_skip _ s1 (n - 1) (by omega)]
          have hrest : s1.drop (n - 1) = (c :: s1).drop n := by
            obtain ⟨k, rfl⟩ : ∃ k, n = k + 1 := ⟨n - 1, by omega⟩
            simp
          rw [hrest]
          have hlenrest : ((c :: s1).drop n).length ≤ len := by
            simp only [List.length_drop, List.length_cons]; omega
          have hsplit := lineBreaks_take_drop n (c :: s1)
          by_cases hline : ∀ x ∈ (c :: s1).take n, isLineTerminator x = false
          · have hB := (ih _ hlenrest).2 (by
              intro j hj hjline
              cases hlater : matchTerms (litTerms cs ++ ⟨.dot, .star⟩ :: tail)
                  (((c :: s1).drop n).drop j) with
              | none => rfl
              | some n2 =>
                exfalso
                simp only [List.length_drop, List.length_cons] at hj
                have hlt := later_match_inside cs tail hcs hne (c :: s1) (n + j) n hm
                  (by simp only [List.length_cons]; omega)
                  (by
                    intro x hx
                    rw [List.take_add, List.mem_append] at hx
                    rcases hx with hx | hx
                    · exact hline x hx
                    · exact hjline x hx)
                  (by rw [← List.drop_drop, hlater]; rfl)
                omega)
            omega
          · have hpos := lineBreaks_pos _ hline
            have hA := (ih _ hlenrest).1
            omega
      · intro hno
        have h0 : matchTerms (litTerms cs ++ ⟨.dot, .star⟩ :: tail) (c :: s1) = none := by
          simpa using hno 0 (Nat.zero_le _) (by simp)
        simp only [countFrom, h0]
        rw [lineBreaks_cons]
        by_cases hc : isLineTerminator c = true
        · have := (ih s1 hs).1
          simp only [hc, if_true]
          omega
        · have := (ih s1 hs).2 (by
            intro j hj hjline
            have := hno (j + 1) (by simp only [List.length_cons]; omega) (by
              intro x hx
              simp only [List.take_succ_cons, List.mem_cons] at hx
              rcases hx with rfl | hx
              · simpa using hc
              · exact hjline x hx)
            simpa using this)
          simp only [hc, Bool.false_eq_true, if_false]
          omega

theorem countMatches_le_lines (cs : List Nat) (tail : Pattern) (m : Pattern)
    (hm : m = litTerms cs ++ ⟨.dot, .star⟩ :: tail)
    (hcs : ∀ c ∈ cs, 65 ≤ canonicalize c ∧ canonicalize c ≤ 90) (hne : 1 ≤ cs.length)
    (text : JSString) : countMatches m text ≤ lineBreaks text + 1 := by
  rw [hm]
  exact (countFrom_le_lines cs tail hcs hne text.length text (le_refl _)).1

/-! ## Texts put together from parts -/

theorem countFrom_append (m : Pattern) (hnil : matchTerms m [] = none) :
    ∀ (w s : JSString) (k : Nat), k ≤ w.length → unaffectedBy m w s = true →
      countFrom m (w ++ s) k = countFrom m w k + countFrom m s 0 := by
  intro w
  induction w with
  | nil =>
    intro s k hk _
    simp only [List.length_nil, Nat.le_zero_eq] at hk
    subst hk
    simp [countFrom, hnil]
  | cons c w ih =>
    intro s k hk hu
    simp only [unaffectedBy, Bool.and_eq_true, beq_iff_eq] at hu
    obtain ⟨h1, h2⟩ := hu
    simp only [List.length_cons] at hk
    cases k with
    | zero =>
      simp only [List.cons_append] at h1 ⊢
      simp only [countFrom, h1]
      cases hm : matchTerms m (c :: w) with
      | none => exact ih s 0 (Nat.zero_le _) h2
      | some n =>
        have hn := matchTerms_le _ _ _ hm
        simp only [List.length_cons] at hn
        simp only
        rw [ih s (n - 1) (by omega) h2]
        omega
    | succ k =>
      simp only [List.cons_append, countFrom]
      exact ih s k (by omega) h2

theorem countMatches_append (m : Pattern) (hnil : matchTerms m [] = none) (w s : JSString)
    (hu : unaffectedBy m w s = true) :
    countMatches m (w ++ s) = countMatches m w + countMatches m s :=
  countFrom_append m hnil w s 0 (Nat.zero_le _) hu

theorem unaffectedBy_of_none (m : Pattern) (s : JSString) : ∀ w : JSString,
    (∀ i, i < w.length → matchTerms m (w.drop i ++ s) = none ∧ matchTerms m (w.drop i) = none) →
      unaffectedBy m w s = true := by
  intro w
  induction w with
  | nil => intro _; rfl
  | cons c w ih =>
    intro h
    have h0 := h 0 (by simp)
    simp only [List.drop_zero] at h0
    simp only [unaffectedBy, Bool.and_eq_true, beq_iff_eq]
    refine ⟨by rw [h0.1, h0.2], ih ?_⟩
    intro i hi
    have := h (i + 1) (by simp only [List.length_cons]; omega)
    simpa using this

theorem countMatches_eq_zero_of_none (m : Pattern) (w : JSString)
    (h : ∀ i, i ≤ w.length → matchTerms m (w.drop i) = none) : countMatches m w = 0 := by
  rw [countMatches, countFrom_eq_zero_iff]
  exact h

/-! ## A code unit no atom accepts -/

theorem greedyStar_append_rejected (p : Nat → Bool) (k : JSString → Option Nat) (b : Nat)
    (tl : JSString) (hp : p b = false) (hk : ∀ x, k (x ++ b :: tl) = k x) :
    ∀ x, greedyStar p k (x ++ b :: tl) = greedyStar p k x := by
  intro x
  induction x with
  | nil =>
    have := hk []
    simp only [List.nil_append] at this ⊢
    simp only [greedyStar, hp, Bool.false_eq_true, if_false, this]
  | cons ch x1 ih =>
    have := hk (ch :: x1)
    simp only [List.cons_append] at this ⊢
    simp only [greedyStar, ih, this]

/-- A pattern none of whose atoms accepts `b` matches a text followed by `b`
as it matches the text alone. -/
theorem matchTerms_append_rejected (b : Nat) (tl : JSString) : ∀ m : Pattern,
    rejects b m = true → ∀ x, matchTerms m (x ++ b :: tl) = matchTerms m x := by
  intro m
  induction m with
  | nil => intro _ x; simp only [matchTerms]
  | cons t rest ih =>
    obtain ⟨a, q⟩ := t
    intro h x
    simp only [rejects, List.all_cons, Bool.and_eq_true, Bool.not_eq_true'] at h
    obtain ⟨ha, hrest⟩ := h
    have ih1 := ih hrest
    cases q with
    | one =>
      cases x with
      | nil => simp only [List.nil_append, matchTerms, ha, Bool.false_eq_true, if_false]
      | cons ch x1 => simp only [List.cons_append, matchTerms, ih1]
    | opt =>
      cases x with
      | nil =>
        have := ih1 []
        simp only [List.nil_append] at this ⊢
        simp only [matchTerms, ha, Bool.false_eq_true, if_false, this]
      | cons ch x1 =>
        have := ih1 (ch :: x1)
        simp only [List.cons_append] at this ⊢
        simp only [matchTerms, ih1, this]
    | star =>
      rw [matchTerms_star, matchTerms_star]
      exact greedyStar_append_rejected _ _ b tl ha ih1 x
    | plus =>
      cases x with
      | nil => simp only [List.nil_append, matchTerms, ha, Bool.false_eq_true, if_false]
      | cons ch x1 =>
        simp only [List.cons_append, matchTerms,
          greedyStar_append_rejected _ _ b tl ha ih1 x1]

/-! ## Across the end of the file name -/

theorem matchTerms_drop_spaces_none (tail : Pattern) (h10 : rejects 10 tail = true)
    (h32 : rejects 32 tail = true) (h70 : rejects 70 tail = true)
    (hnil : matchTerms tail [] = none) (tl : JSString) :
    ∀ (V : JSString), (∀ v ∈ V, v = 10 ∨ v = 32) → ∀ k,
      (∀ c ∈ (V ++ 70 :: tl).take k, isWhiteSpace c = true) →
        matchTerms tail ((V ++ 70 :: tl).drop k) = none := by
  intro V
  induction V with
  | nil =>
    intro _ k hk
    cases k with
    | zero =>
      have := matchTerms_append_rejected 70 tl tail h70 []
      simp only [List.nil_append] at this ⊢
      simp only [List.drop_zero, this, hnil]
    | succ k =>
      have := hk 70 (by simp)
      exact absurd this (by decide)
  | cons v V ih =>
    intro hV k hk
    simp only [List.mem_cons, forall_eq_or_imp] at hV
    cases k with
    | zero =>
      simp only [List.cons_append, List.drop_zero]
      have hv : rejects v tail = true := by
        rcases hV.1 with rfl | rfl
        · exact h10
        · exact h32
      have := matchTerms_append_rejected v (V ++ 70 :: tl) tail hv []
      simp only [List.nil_append] at this
      rw [this, hnil]
    | succ k =>
      simp only [List.cons_append, List.drop_succ_cons]
      apply ih hV.2 k
      intro c hc
      exact hk c (by simp only [List.cons_append, List.take_succ_cons, List.mem_cons]; exact Or.inr hc)

theorem head_rejected (tail : Pattern) (h10 : rejects 10 tail = true)
    (h32 : rejects 32 tail = true) (h70 : rejects 70 tail = true) (tl : JSString)
    (V : JSString) (hV : ∀ v ∈ V, v = 10 ∨ v = 32) :
    ∃ r R, V ++ 70 :: tl = r :: R ∧ rejects r tail = true := by
  cases V with
  | nil => exact ⟨70, tl, rfl, h70⟩
  | cons v V =>
    simp only [List.mem_cons, forall_eq_or_imp] at hV
    refine ⟨v, V ++ 70 :: tl, rfl, ?_⟩
    rcases hV.1 with rfl | rfl
    · exact h10
    · exact h32

theorem greedyStar_spaces_cross (tail : Pattern) (h10 : rejects 10 tail = true)
    (h32 : rejects 32 tail = true) (h70 : rejects 70 tail = true)
    (hnil : matchTerms tail [] = none) (tl : JSString) (V : JSString)
    (hV : ∀ v ∈ V, v = 10 ∨ v = 32) (y : JSString)
    (h : (greedyStar Atom.space.accepts (matchTerms tail) (y ++ (V ++ 70 :: tl))).isSome = true) :
    (greedyStar Atom.space.accepts (matchTerms tail) y).isSome = true := by
  obtain ⟨j, hj, hall, hk⟩ := greedyStar_sound _ _ _ h
  by_cases hjy : j ≤ y.length
  · rw [List.drop_append_of_le_length hjy] at hk
    rw [List.take_append_of_le_length hjy] at hall
    obtain ⟨r, R, hR, hr⟩ := head_rejected tail h10 h32 h70 tl V hV
    rw [hR, matchTerms_append_rejected r R tail hr] at hk
    have := greedyStar_isSome_of_split Atom.space.accepts (matchTerms tail) (y.take j)
      (y.drop j) hall hk
    rwa [List.take_append_drop] at this
  · have hjy1 : y.length ≤ j := by omega
    rw [List.drop_append_eq_append_drop, List.drop_eq_nil_of_le hjy1, List.nil_append] at hk
    have hnone := matchTerms_drop_spaces_none tail h10 h32 h70 hnil tl V hV (j - y.length) (by
      intro c hc
      apply hall c
      rw [List.take_append_eq_append_take, List.mem_append]
      exact Or.inr hc)
    rw [hnone] at hk
    simp at hk

/-- A pattern of letters and `.*`, then `\s+`, then pattern characters: a match
on a text followed by a line feed, spaces and `F` is a match on the text. -/
theorem matchTerms_spaces_cross (tail : Pattern) (h10 : rejects 10 tail = true)
    (h32 : rejects 32 tail = true) (h70 : rejects 70 tail = true)
    (hnil : matchTerms tail [] = none) (tl : JSString) (V : JSString)
    (hV : ∀ v ∈ V, v = 10 ∨ v = 32) :
    ∀ (pre : Pattern), rejects 10 pre = true →
      pre.all (fun t => t.quant == Quant.one || t.quant == Quant.star) = true →
      ∀ x, (matchTerms (pre ++ ⟨.space, .plus⟩ :: tail) (x ++ 10 :: (V ++ 70 :: tl))).isSome = true →
        (matchTerms (pre ++ ⟨.space, .plus⟩ :: tail) x).isSome = true := by
  intro pre
  induction pre with
  | nil =>
    intro _ _ x h
    simp only [List.nil_append] at h ⊢
    cases x with
    | nil =>
      simp only [List.nil_append, matchTerms] at h
      have hacc : Atom.space.accepts 10 = true := by decide
      simp only [hacc, if_true, Option.isSome_map'] at h
      have := greedyStar_spaces_cross tail h10 h32 h70 hnil tl V hV [] (by simpa using h)
      simp only [greedyStar, hnil] at this
      simp at this
    | cons ch x1 =>
      simp only [List.cons_append, matchTerms] at h ⊢
      by_cases hacc : Atom.space.accepts ch = true
      · simp only [hacc, if_true, Option.isSome_map'] at h ⊢
        have hV1 : ∀ v ∈ 10 :: V, v = 10 ∨ v = 32 := by
          intro v hv
          simp only [List.mem_cons] at hv
          rcases hv with rfl | hv
          · exact Or.inl rfl
          · exact hV v hv
        exact greedyStar_spaces_cross tail h10 h32 h70 hnil tl (10 :: V) hV1 x1 h
      · simp [hacc] at h
  | cons t pre ih =>
    obtain ⟨a, q⟩ := t
    intro hrej hq x h
    simp only [rejects, List.all_cons, Bool.and_eq_true, Bool.not_eq_true'] at hrej
    simp only [List.all_cons, Bool.and_eq_true, Bool.or_eq_true, beq_iff_eq] at hq
    obtain ⟨ha, hrej1⟩ := hrej
    obtain ⟨hq0, hq1⟩ := hq
    have ih1 := ih hrej1 hq1
    rcases hq0 with rfl | rfl
    · cases x with
      | nil =>
        simp only [List.cons_append, List.nil_append, matchTerms, ha] at h
        simp at h
      | cons ch x1 =>
        simp only [List.cons_append, matchTerms] at h ⊢
        by_cases hacc : a.accepts ch = true
        · simp only [hacc, if_true, Option.isSome_map'] at h ⊢
          exact ih1 x1 h
        · simp [hacc] at h
    · simp only [List.cons_append] at h ⊢
      rw [matchTerms_star] at h ⊢
      obtain ⟨j, hj, hall, hk⟩ := greedyStar_sound _ _ _ h
      have hjx : j ≤ x.length := by
        by_contra hc
        have hmem : (10 : Nat) ∈ (x ++ 10 :: (V ++ 70 :: tl)).take j := by
          rw [List.take_append_eq_append_take, List.mem_append]
          right
          obtain ⟨k, hk1⟩ : ∃ k, j - x.length = k + 1 := ⟨j - x.length - 1, by omega⟩
          rw [hk1, List.take_succ_cons]
          exact List.mem_cons_self _ _
        have := hall 10 hmem
        rw [ha] at this
        simp at this
      rw [List.drop_append_of_le_length hjx] at hk
      rw [List.take_append_of_le_length hjx] at hall
      have := greedyStar_isSome_of_split a.accepts _ (x.take j) (x.drop j) hall (ih1 _ hk)
      rwa [List.take_append_drop] at this

/-- For a pattern that passes `crossOK`, a match on a text followed by a line
feed, six spaces and `F` is a match on the text. -/
theorem matchTerms_cross (m : Pattern) (hm : crossOK m = true) (x tl : JSString)
    (h : (matchTerms m (x ++ 10 :: ([32, 32, 32, 32, 32, 32] ++ 70 :: tl))).isSome = true) :
    (matchTerms m x).isSome = true := by
  unfold crossOK at hm
  by_cases hr : rejects 10 m = true
  · rwa [matchTerms_append_rejected 10 _ m hr] at h
  · simp only [hr, Bool.false_or] at hm
    have hsplit : m = (m.takeWhile fun t => t.atom != Atom.space) ++
        (m.dropWhile fun t => t.atom != Atom.space) := (List.takeWhile_append_dropWhile _ _).symm
    split at hm
    · rename_i tail hdrop
      simp only [Bool.and_eq_true, Option.isNone_iff_eq_none] at hm
      obtain ⟨⟨⟨⟨⟨h1, h2⟩, h3⟩, h4⟩, h5⟩, h6⟩ := hm
      rw [hdrop] at hsplit
      rw [hsplit] at h ⊢
      exact matchTerms_spaces_cross tail h3 h4 h5 h6 tl [32, 32, 32, 32, 32, 32]
        (by intro v hv; simp only [List.mem_cons, List.mem_singleton, List.not_mem_nil,
              or_false, or_self] at hv; exact Or.inr hv)
        _ h1 h2 x h
    · simp at hm

theorem rules_crossOK : ∀ sr ∈ allRules riskPatterns, crossOK sr.2.pattern.source = true := by
  decide

theorem rules_plainOK : ∀ sr ∈ allRules riskPatterns, plainOK sr.2.pattern.source = true := by
  decide

theorem rules_no_empty_match :
    ∀ sr ∈ allRules riskPatterns, matchTerms sr.2.pattern.source [] = none := by
  decide

/-! ## Sizes and times -/

theorem digitChar_digit : ∀ k, k < 10 →
    48 ≤ (Nat.digitChar k).toNat ∧ (Nat.digitChar k).toNat ≤ 57 := by
  decide

theorem toDigitsCore_digits : ∀ (fuel n : Nat) (ds : List Char),
    (∀ c ∈ ds, 48 ≤ c.toNat ∧ c.toNat ≤ 57) →
      ∀ c ∈ Nat.toDigitsCore 10 fuel n ds, 48 ≤ c.toNat ∧ c.toNat ≤ 57 := by
  intro fuel
  induction fuel with
  | zero => intro n ds h c hc; simpa [Nat.toDigitsCore] using h c (by simpa [Nat.toDigitsCore] using hc)
  | succ fuel ih =>
    intro n ds h c hc
    have hd := digitChar_digit (n % 10) (Nat.mod_lt _ (by decide))
    have hds : ∀ c ∈ Nat.digitChar (n % 10) :: ds, 48 ≤ c.toNat ∧ c.toNat ≤ 57 := by
      intro c hc
      simp only [List.mem_cons] at hc
      rcases hc with rfl | hc
      · exact hd
      · exact h c hc
    simp only [Nat.toDigitsCore] at hc
    split at hc
    · exact hds c hc
    · exact ih _ _ hds c hc

theorem size_isoChars (n : Nat) : ∀ c ∈ utf16 (toString n), c ∈ isoChars := by
  intro c hc
  have hrepr : utf16 (toString n) = (Nat.toDigits 10 n).flatMap utf16Char := rfl
  rw [hrepr, List.mem_flatMap] at hc
  obtain ⟨d, hd, hcd⟩ := hc
  have hdig := toDigitsCore_digits (n + 1) n [] (by simp) d hd
  have hlt : d.toNat < 65536 := by omega
  simp only [utf16Char, hlt, if_true, List.mem_singleton] at hcd
  subst hcd
  obtain ⟨h1, h2⟩ := hdig
  generalize d.toNat = k at h1 h2
  simp only [isoChars, List.mem_cons, List.mem_singleton, List.not_mem_nil, or_false]
  omega

/-- A pattern that passes `plainOK` matches nowhere in a size or a time, also
when a space, a line feed or nothing follows. -/
theorem plain_none (m : Pattern) (hm : plainOK m = true) (s : JSString)
    (hs : s = [] ∨ ∃ h tl, s = h :: tl ∧ (h = 32 ∨ h = 10)) :
    ∀ X : JSString, (∀ c ∈ X, c ∈ isoChars) → ∀ i, i < X.length →
      matchTerms m (X.drop i ++ s) = none := by
  have key : ∀ (ch : Nat) (Y : JSString), ch ∈ isoChars → (∀ c ∈ Y, c ∈ isoChars) →
      matchTerms m (ch :: (Y ++ s)) = none := by
    intro ch Y hch hY
    unfold plainOK at hm
    split at hm
    · rename_i c1 c2 rest
      rw [List.all_eq_true] at hm
      have h1 := hm ch hch
      rw [List.all_eq_true] at h1
      simp only [matchTerms]
      by_cases hacc : (Atom.char c1).accepts ch = true
      · simp only [hacc, if_true, Option.map_eq_none']
        cases Y with
        | nil =>
          rcases hs with rfl | ⟨h, tl, rfl, hh⟩
          · rfl
          · have h2 := h1 h (by rcases hh with rfl | rfl <;> simp)
            simp only [hacc, Bool.true_and, Bool.not_eq_true'] at h2
            simp only [List.nil_append, h2, Bool.false_eq_true, if_false]
        | cons nx Y1 =>
          have h2 := h1 nx (by
            have := hY nx (List.mem_cons_self _ _)
            exact List.mem_append_left _ this)
          simp only [hacc, Bool.true_and, Bool.not_eq_true'] at h2
          simp only [List.cons_append, h2, Bool.false_eq_true, if_false]
      · simp only [hacc, Bool.false_eq_true, if_false]
    · simp at hm
  intro X hX i hi
  obtain ⟨ch, Y, hdrop⟩ : ∃ ch Y, X.drop i = ch :: Y := by
    cases h : X.drop i with
    | nil =>
      have := congrArg List.length h
      simp only [List.length_drop, List.length_nil] at this
      omega
    | cons ch Y => exact ⟨ch, Y, rfl⟩
  have hsub : ∀ c ∈ X.drop i, c ∈ isoChars := fun c hc => hX c (List.mem_of_mem_drop hc)
  rw [hdrop] at hsub ⊢
  exact key ch Y (hsub ch (List.mem_cons_self _ _))
    (fun c hc => hsub c (List.mem_cons_of_mem _ hc))

theorem plain_unaffected (m : Pattern) (hm : plainOK m = true) (s : JSString)
    (hs : s = [] ∨ ∃ h tl, s = h :: tl ∧ (h = 32 ∨ h = 10))
    (X : JSString) (hX : ∀ c ∈ X, c ∈ isoChars) : unaffectedBy m X s = true := by
  apply unaffectedBy_of_none
  intro i hi
  refine ⟨plain_none m hm s hs X hX i hi, ?_⟩
  have := plain_none m hm [] (Or.inl rfl) X hX i hi
  simpa using this

theorem plain_countMatches (m : Pattern) (hm : plainOK m = true)
    (hnil : matchTerms m [] = none) (X : JSString) (hX : ∀ c ∈ X, c ∈ isoChars) :
    countMatches m X = 0 := by
  apply countMatches_eq_zero_of_none
  intro i hi
  by_cases h : i < X.length
  · have := plain_none m hm [] (Or.inl rfl) X hX i h
    simpa using this
  · have : i = X.length := by omega
    rw [this, List.drop_length]
    exact hnil

/-! ## Findings from numbers of matches -/

theorem findings_eq_findingsFromCounts (text : JSString) :
    ∀ rules : List (String × RiskRule),
      ((rules.filter fun sr => hasMatch sr.2.pattern.source text).map
          fun sr => findingOf sr.1 text sr.2) =
        findingsFromCounts rules (rules.map fun sr => countMatches sr.2.pattern.source text) := by
  intro rules
  induction rules with
  | nil => rfl
  | cons sr rest ih =>
    simp only [findingsFromCounts] at ih ⊢
    simp only [List.map_cons, List.zip_cons_cons, List.filterMap_cons, List.filter_cons]
    by_cases h0 : countMatches sr.2.pattern.source text = 0
    · have hm : hasMatch sr.2.pattern.source text = false := (countMatches_eq_zero_iff _ _).mp h0
      simp only [hm, h0, if_true, Bool.false_eq_true, if_false]
      exact ih
    · have hm : hasMatch sr.2.pattern.source text = true :=
        (countMatches_pos_iff _ _).mp (Nat.pos_of_ne_zero h0)
      simp only [hm, h0, if_true, if_false, List.map_cons, ih]
      rfl

theorem risks_eq_findingsFromCounts (now : String) (text : JSString) :
    (reportOf now text).risks = findingsFromCounts (allRules riskPatterns) (counts text) := by
  rw [risks_reportOf, findings_eq_findingsFromCounts]
  rfl

/-! ## The sample contract -/

set_option maxHeartbeats 4000000 in
theorem head_unaffected (s : JSString) :
    (allRules riskPatterns).all (fun sr => unaffectedBy sr.2.pattern.source sampleHead s) =
      true := by
  rfl

set_option maxHeartbeats 4000000 in
theorem counts_head : counts sampleHead = pdfCounts := by
  rfl

theorem sizeLabel_unaffected (s : JSString) :
    (allRules riskPatterns).all (fun sr => unaffectedBy sr.2.pattern.source sizeLabel s) =
      true := by
  rfl

theorem dateLabel_unaffected (s : JSString) :
    (allRules riskPatterns).all (fun sr => unaffectedBy sr.2.pattern.source dateLabel s) =
      true := by
  rfl

theorem labels_no_match : ∀ sr ∈ allRules riskPatterns,
    countMatches sr.2.pattern.source sizeLabel = 0 ∧
      countMatches sr.2.pattern.source dateLabel = 0 ∧
      countMatches sr.2.pattern.source sampleEnd = 0 := by
  decide

theorem sampleText_parts (fileName : JSString) (size : Nat) (isoTime : JSString) :
    sampleText fileName size isoTime =
      sampleHead ++ (fileName ++ (sizeLabel ++ (utf16 (toString size) ++
        (dateLabel ++ (isoTime ++ sampleEnd))))) := by
  simp only [sampleText, sampleHead, sizeLabel, dateLabel, sampleEnd, List.append_assoc]

/-- The file name, the size and the time add no match to the sample contract,
when no pattern matches in the file name. -/
theorem countMatches_sampleText (fileName : JSString) (size : Nat) (isoTime : JSString)
    (hname : ∀ sr ∈ allRules riskPatterns, hasMatch sr.2.pattern.source fileName = false)
    (htime : ∀ c ∈ isoTime, c ∈ isoChars) :
    ∀ sr ∈ allRules riskPatterns,
      countMatches sr.2.pattern.source (sampleText fileName size isoTime) =
        countMatches sr.2.pattern.source sampleHead := by
  intro sr hsr
  have hnil := rules_no_empty_match sr hsr
  have hcross := rules_crossOK sr hsr
  have hplain := rules_plainOK sr hsr
  obtain ⟨hl1, hl2, hl3⟩ := labels_no_match sr hsr
  have hsize : sizeLabel = 10 :: ([32, 32, 32, 32, 32, 32] ++ 70 :: utf16 "ile size: ") := by
    decide
  have hdate : dateLabel = 32 :: utf16 "bytes\n      Analysis date: " := by decide
  have hend : sampleEnd = 10 :: utf16 "    " := by decide
  have hnone := (hasMatch_eq_false_iff _ _).mp (hname sr hsr)
  -- the head
  have u1 : ∀ s, unaffectedBy sr.2.pattern.source sampleHead s = true := by
    intro s
    have := head_unaffected s
    rw [List.all_eq_true] at this
    exact this sr hsr
  -- the file name
  have u2 : ∀ tl, unaffectedBy sr.2.pattern.source fileName (sizeLabel ++ tl) = true := by
    intro tl
    apply unaffectedBy_of_none
    intro i hi
    refine ⟨?_, hnone i (Nat.le_of_lt hi)⟩
    cases hx : matchTerms sr.2.pattern.source (fileName.drop i ++ (sizeLabel ++ tl)) with
    | none => rfl
    | some n =>
      exfalso
      have hsome : (matchTerms sr.2.pattern.source
          (fileName.drop i ++ 10 :: ([32, 32, 32, 32, 32, 32] ++
            70 :: (utf16 "ile size: " ++ tl)))).isSome = true := by
        have e : fileName.drop i ++ 10 :: ([32, 32, 32, 32, 32, 32] ++
            70 :: (utf16 "ile size: " ++ tl)) = fileName.drop i ++ (sizeLabel ++ tl) := by
          rw [hsize]; simp
        rw [e, hx]; rfl
      have := matchTerms_cross _ hcross _ _ hsome
      rw [hnone i (Nat.le_of_lt hi)] at this
      simp at this
  have c2 : countMatches sr.2.pattern.source fileName = 0 :=
    countMatches_eq_zero_of_none _ _ hnone
  -- the labels
  have u3 : ∀ s, unaffectedBy sr.2.pattern.source sizeLabel s = true := by
    intro s
    have := sizeLabel_unaffected s
    rw [List.all_eq_true] at this
    exact this sr hsr
  have u5 : ∀ s, unaffectedBy sr.2.pattern.source dateLabel s = true := by
    intro s
    have := dateLabel_unaffected s
    rw [List.all_eq_true] at this
    exact this sr hsr
  -- the size and the time
  have u4 : ∀ tl, unaffectedBy sr.2.pattern.source (utf16 (toString size)) (dateLabel ++ tl) =
      true := by
    intro tl
    apply plain_unaffected _ hplain _ _ _ (size_isoChars size)
    right
    exact ⟨32, utf16 "bytes\n      Analysis date: " ++ tl, by rw [hdate]; rfl, Or.inl rfl⟩
  have c4 : countMatches sr.2.pattern.source (utf16 (toString size)) = 0 :=
    plain_countMatches _ hplain hnil _ (size_isoChars size)
  have u6 : unaffectedBy sr.2.pattern.source isoTime sampleEnd = true := by
    apply plain_unaffected _ hplain _ _ _ htime
    right
    exact ⟨10, utf16 "    ", hend, Or.inr rfl⟩
  have c6 : countMatches sr.2.pattern.source isoTime = 0 :=
    plain_countMatches _ hplain hnil _ htime
  rw [sampleText_parts, countMatches_append _ hnil _ _ (u1 _),
    countMatches_append _ hnil _ _ (u2 _), countMatches_append _ hnil _ _ (u3 _),
    countMatches_append _ hnil _ _ (u4 _), countMatches_append _ hnil _ _ (u5 _),
    countMatches_append _ hnil _ _ u6, c2, hl1, c4, hl2, c6, hl3]
  rfl

theorem counts_sampleText (fileName : JSString) (size : Nat) (isoTime : JSString)
    (hname : ∀ sr ∈ allRules riskPatterns, hasMatch sr.2.pattern.source fileName = false)
    (htime : ∀ c ∈ isoTime, c ∈ isoChars) :
    counts (sampleText fileName size isoTime) = pdfCounts := by
  rw [← counts_head]
  simp only [counts]
  apply List.map_congr_left
  exact countMatches_sampleText fileName size isoTime hname htime

theorem pdf_findings :
    ((findingsFromCounts (allRules riskPatterns) pdfCounts).map fun f =>
        (f.type, f.severity, f.occurrences)) =
      [("Broad Indemnification", "high", 1), ("Auto-Renewal", "high", 1),
        ("Short Termination Notice", "medium", 1), ("Termination Without Cause", "medium", 1),
        ("Confidentiality Requirements", "medium", 2), ("Audit Rights", "medium", 1),
        ("Price Escalation", "medium", 1), ("Liability Limits", "medium", 1),
        ("Jurisdiction", "medium", 1), ("Force Majeure", "low", 2),
        ("Notice Requirements", "low", 5), ("Warranty Limitations", "low", 1),
        ("Insurance Requirements", "low", 2), ("Dispute Resolution", "low", 2)] ∧
      (findingsFromCounts (allRules riskPatterns) pdfCounts).length = 14 ∧
      min 100 (((findingsFromCounts (allRules riskPatterns) pdfCounts).map
        fun f => weight f.severity).sum) = 65 := by
  decide

/-! ## Adding text -/

/-- A match at the start of a text is still there when text is added after
it (perhaps a longer one is taken). -/
theorem matchTerms_isSome_append : ∀ (m : Pattern) (s u : JSString),
    (matchTerms m s).isSome = true → (matchTerms m (s ++ u)).isSome = true := by
  intro m
  induction m with
  | nil => intro s u _; rw [matchTerms_nil]; rfl
  | cons x rest ih =>
    obtain ⟨a, q⟩ := x
    intro s u h
    cases q with
    | one =>
      cases s with
      | nil => simp [matchTerms] at h
      | cons ch s1 =>
        simp only [matchTerms, List.cons_append] at h ⊢
        by_cases hacc : a.accepts ch = true
        · simp only [hacc, if_true, Option.isSome_map'] at h ⊢
          exact ih s1 u h
        · simp [hacc] at h
    | opt =>
      cases s with
      | nil =>
        simp only [matchTerms] at h
        have hu := ih [] u h
        simp only [List.nil_append] at hu ⊢
        cases u with
        | nil => simpa [matchTerms] using h
        | cons c u1 =>
          simp only [matchTerms]
          split
          · split
            · rfl
            · exact hu
          · exact hu
      | cons ch s1 =>
        simp only [matchTerms, List.cons_append] at h ⊢
        by_cases hacc : a.accepts ch = true
        · simp only [hacc, if_true] at h ⊢
          cases h1 : matchTerms rest (s1 ++ u) with
          | some n => rfl
          | none =>
            simp only
            cases h2 : matchTerms rest s1 with
            | some n =>
              have := ih s1 u (by rw [h2]; rfl)
              rw [h1] at this
              simp at this
            | none =>
              rw [h2] at h
              simp only at h
              exact ih (ch :: s1) u h
        · simp only [hacc, Bool.false_eq_true, if_false] at h ⊢
          exact ih (ch :: s1) u h
    | star =>
      rw [matchTerms_star] at h ⊢
      obtain ⟨j, hj, hall, hk⟩ := greedyStar_sound a.accepts (matchTerms rest) s h
      have hsplit : s ++ u = s.take j ++ (s.drop j ++ u) := by
        rw [← List.append_assoc, List.take_append_drop]
      rw [hsplit]
      exact greedyStar_isSome_of_split _ _ _ _ hall (ih _ u hk)
    | plus =>
      cases s with
      | nil => simp [matchTerms] at h
      | cons ch s1 =>
        simp only [matchTerms, List.cons_append] at h ⊢
        by_cases hacc : a.accepts ch = true
        · simp only [hacc, if_true, Option.isSome_map'] at h ⊢
          obtain ⟨j, hj, hall, hk⟩ := greedyStar_sound a.accepts (matchTerms rest) s1 h
          have hsplit : s1 ++ u = s1.take j ++ (s1.drop j ++ u) := by
            rw [← List.append_assoc, List.take_append_drop]
          rw [hsplit]
          exact greedyStar_isSome_of_split _ _ _ _ hall (ih _ u hk)
        · simp [hacc] at h

theorem hasMatch_append_right (m : Pattern) (t u : JSString) (h : hasMatch m t = true) :
    hasMatch m (t ++ u) = true := by
  rw [hasMatch_iff] at h ⊢
  obtain ⟨i, hi, hm⟩ := h
  refine ⟨i, by simp only [List.length_append]; omega, ?_⟩
  rw [List.drop_append_of_le_length hi]
  exact matchTerms_isSome_append m _ u hm

theorem hasMatch_append_left (m : Pattern) (t u : JSString) (h : hasMatch m t = true) :
    hasMatch m (u ++ t) = true := by
  rw [hasMatch_iff] at h ⊢
  obtain ⟨i, hi, hm⟩ := h
  refine ⟨u.length + i, by simp only [List.length_append]; omega, ?_⟩
  rw [List.drop_append_eq_append_drop, List.drop_eq_nil_of_le (by omega), List.nil_append]
  have e : u.length + i - u.length = i := by omega
  rw [e]; exact hm

theorem matched_length_mono (t v : JSString) (rules : List RiskRule)
    (h : ∀ r ∈ rules, hasMatch r.pattern.source t = true → hasMatch r.pattern.source v = true) :
    (matched t rules).length ≤ (matched v rules).length := by
  induction rules with
  | nil => simp [matched]
  | cons r rest ih =>
    have ih1 := ih fun r1 hr1 => h r1 (List.mem_cons_of_mem _ hr1)
    simp only [matched, List.filter_cons] at ih1 ⊢
    by_cases ht : hasMatch r.pattern.source t = true
    · have hv := h r (List.mem_cons_self _ _) ht
      simp only [ht, hv, if_true, List.length_cons]
      omega
    · simp only [ht, Bool.false_eq_true, if_false]
      split
      · simp only [List.length_cons]; omega
      · exact ih1

/-- Reports of a text and of a text in which at least the same rules match. -/
theorem reportOf_mono (nowA nowB : String) (t v : JSString)
    (h : ∀ m : Pattern, hasMatch m t = true → hasMatch m v = true) :
    (∀ f ∈ (reportOf nowA t).risks, ∃ g ∈ (reportOf nowB v).risks, g.type = f.type) ∧
      (reportOf nowA t).riskScore ≤ (reportOf nowB v).riskScore := by
  constructor
  · intro f hf
    obtain ⟨sr, hsr, hm, rfl⟩ := (mem_risks_reportOf nowA t f).mp hf
    exact ⟨findingOf sr.1 v sr.2,
      (mem_risks_reportOf nowB v _).mpr ⟨sr, hsr, h _ hm, rfl⟩, rfl⟩
  · rw [riskScore_reportOf_tiers, riskScore_reportOf_tiers]
    have hH := matched_length_mono t v riskPatterns.high fun r _ => h _
    have hM := matched_length_mono t v riskPatterns.medium fun r _ => h _
    have hL := matched_length_mono t v riskPatterns.low fun r _ => h _
    omega

/-! ## The claims -/

/-- C1: the risk score is the sum of the weights of the severities of the
findings (high 10, medium 5, low 2), capped at 100; so it lies between 0 and
100. -/
theorem riskScore_eq_min (now : String) (rp : RiskPatterns) (text : JSString)
    (hrp : rp.reset = riskPatterns) :
    ∃ report rp1, analyzeRisks now rp text = some (report, rp1) ∧
      report.riskScore = min 100 ((report.risks.map fun f => weight f.severity).sum) ∧
      report.riskScore ≤ 100 := by
  refine ⟨reportOf now text, riskPatterns, analyzeRisks_eq now rp text hrp, ?_, ?_⟩
  · rw [weights_reportOf, Nat.min_comm]
    rfl
  · exact Nat.min_le_right _ _

theorem riskScore_eq_min_witness :
    ∃ report rp1, analyzeRisks "2026-01-01T00:00:00.000Z" riskPatterns
        (utf16 "penalty notice") = some (report, rp1) ∧
      report.riskScore = min 100 ((report.risks.map fun f => weight f.severity).sum) ∧
      report.riskScore ≤ 100 :=
  riskScore_eq_min "2026-01-01T00:00:00.000Z" riskPatterns (utf16 "penalty notice") (by decide)

/-- C2: for every rule of the three tiers, the report has a finding with the
type of the rule exactly when the pattern of the rule matches somewhere in the
text; the 19 types are pairwise distinct; and when no pattern matches,
`riskCount` and `riskScore` are 0. -/
theorem finding_iff_hasMatch (now : String) (rp : RiskPatterns) (text : JSString)
    (hrp : rp.reset = riskPatterns) :
    ∃ report rp1, analyzeRisks now rp text = some (report, rp1) ∧
      (∀ sr ∈ allRules riskPatterns,
        (∃ f ∈ report.risks, f.type = sr.2.type) ↔
          hasMatch sr.2.pattern.source text = true) ∧
      ((allRules riskPatterns).map (·.2.type)).Nodup ∧
      (allRules riskPatterns).length = 19 ∧
      ((∀ sr ∈ allRules riskPatterns, hasMatch sr.2.pattern.source text = false) →
        report.riskCount = 0 ∧ report.riskScore = 0) := by
  refine ⟨reportOf now text, riskPatterns, analyzeRisks_eq now rp text hrp, ?_, types_nodup,
    by decide, ?_⟩
  · intro sr hsr
    constructor
    · rintro ⟨f, hf, hty⟩
      obtain ⟨sr1, h1, h2, rfl⟩ := (mem_risks_reportOf now text f).mp hf
      have : sr1 = sr := rule_eq_of_type_eq sr1 sr h1 hsr hty
      rw [← this]; exact h2
    · intro h
      exact ⟨findingOf sr.1 text sr.2,
        (mem_risks_reportOf now text _).mpr ⟨sr, hsr, h, rfl⟩, rfl⟩
  · intro hnone
    have hnil : (reportOf now text).risks = [] := by
      rw [risks_reportOf, List.map_eq_nil_iff, List.filter_eq_nil_iff]
      intro sr hsr
      simp [hnone sr hsr]
    constructor
    · rw [riskCount_reportOf, hnil]; rfl
    · rw [riskScore_reportOf, hnil]; rfl

theorem finding_iff_hasMatch_witness :
    ∃ report rp1, analyzeRisks "2026-01-01T00:00:00.000Z" riskPatterns
        (utf16 "no governing law") = some (report, rp1) ∧
      (∀ sr ∈ allRules riskPatterns,
        (∃ f ∈ report.risks, f.type = sr.2.type) ↔
          hasMatch sr.2.pattern.source (utf16 "no governing law") = true) ∧
      ((allRules riskPatterns).map (·.2.type)).Nodup ∧
      (allRules riskPatterns).length = 19 ∧
      ((∀ sr ∈ allRules riskPatterns,
          hasMatch sr.2.pattern.source (utf16 "no governing law") = false) →
        report.riskCount = 0 ∧ report.riskScore = 0) :=
  finding_iff_hasMatch "2026-01-01T00:00:00.000Z" riskPatterns (utf16 "no governing law")
    (by decide)

/-- C3: the occurrences of a finding are the number of non-overlapping matches
of the pattern of the rule with the type of the finding, counted by scanning
the text from left to right under the `i` flag, and are at least 1. -/
theorem occurrences_eq_countMatches (now : String) (rp : RiskPatterns) (text : JSString)
    (hrp : rp.reset = riskPatterns) :
    ∃ report rp1, analyzeRisks now rp text = some (report, rp1) ∧
      ∀ f ∈ report.risks,
        (∃ sr ∈ allRules riskPatterns, sr.2.type = f.type) ∧
        (∀ sr ∈ allRules riskPatterns, sr.2.type = f.type →
          f.occurrences = countMatches sr.2.pattern.source text) ∧
        1 ≤ f.occurrences := by
  refine ⟨reportOf now text, riskPatterns, analyzeRisks_eq now rp text hrp, ?_⟩
  intro f hf
  obtain ⟨sr1, h1, h2, rfl⟩ := (mem_risks_reportOf now text f).mp hf
  refine ⟨⟨sr1, h1, rfl⟩, ?_, ?_⟩
  · intro sr hsr hty
    have : sr = sr1 := rule_eq_of_type_eq sr sr1 hsr h1 hty
    rw [this]; rfl
  · exact (countMatches_pos_iff _ _).mpr h2

theorem occurrences_eq_countMatches_witness :
    ∃ report rp1, analyzeRisks "2026-01-01T00:00:00.000Z" riskPatterns
        (utf16 "Notice: NOTICE of penalty") = some (report, rp1) ∧
      ∀ f ∈ report.risks,
        (∃ sr ∈ allRules riskPatterns, sr.2.type = f.type) ∧
        (∀ sr ∈ allRules riskPatterns, sr.2.type = f.type →
          f.occurrences = countMatches sr.2.pattern.source (utf16 "Notice: NOTICE of penalty")) ∧
        1 ≤ f.occurrences :=
  occurrences_eq_countMatches "2026-01-01T00:00:00.000Z" riskPatterns
    (utf16 "Notice: NOTICE of penalty") (by decide)

/-- C4: no two findings of a report have the same type. -/
theorem risks_types_nodup (now : String) (rp : RiskPatterns) (text : JSString)
    (hrp : rp.reset = riskPatterns) :
    ∃ report rp1, analyzeRisks now rp text = some (report, rp1) ∧
      (report.risks.map (·.type)).Nodup := by
  refine ⟨reportOf now text, riskPatterns, analyzeRisks_eq now rp text hrp, ?_⟩
  have hsub : ((reportOf now text).risks.map (·.type)).Sublist
      ((allRules riskPatterns).map (·.2.type)) := by
    rw [risks_reportOf, List.map_map]
    exact List.Sublist.map _ (List.filter_sublist _)
  exact List.Nodup.sublist hsub types_nodup

theorem risks_types_nodup_witness :
    ∃ report rp1, analyzeRisks "2026-01-01T00:00:00.000Z" riskPatterns
        (utf16 "notice notice exclusive") = some (report, rp1) ∧
      (report.risks.map (·.type)).Nodup :=
  risks_types_nodup "2026-01-01T00:00:00.000Z" riskPatterns (utf16 "notice notice exclusive")
    (by decide)

/-- C5: the findings come in the order high, medium, low and in table order
within a tier: their (type, severity, description) form a subsequence of the
rule table flattened as high ++ medium ++ low, each rule with the severity of
its tier. -/
theorem risks_sublist_table (now : String) (rp : RiskPatterns) (text : JSString)
    (hrp : rp.reset = riskPatterns) :
    ∃ report rp1, analyzeRisks now rp text = some (report, rp1) ∧
      (report.risks.map fun f => (f.type, f.severity, f.description)).Sublist
        ((riskPatterns.high.map fun r => (r.type, "high", r.description)) ++
          (riskPatterns.medium.map fun r => (r.type, "medium", r.description)) ++
          (riskPatterns.low.map fun r => (r.type, "low", r.description))) := by
  refine ⟨reportOf now text, riskPatterns, analyzeRisks_eq now rp text hrp, ?_⟩
  have htable : ((riskPatterns.high.map fun r => (r.type, "high", r.description)) ++
      (riskPatterns.medium.map fun r => (r.type, "medium", r.description)) ++
      (riskPatterns.low.map fun r => (r.type, "low", r.description))) =
      (allRules riskPatterns).map fun sr => (sr.2.type, sr.1, sr.2.description) := by
    simp only [allRules, List.map_append, List.map_map]
    rfl
  rw [htable, risks_reportOf, List.map_map]
  exact List.Sublist.map _ (List.filter_sublist _)

theorem risks_sublist_table_witness :
    ∃ report rp1, analyzeRisks "2026-01-01T00:00:00.000Z" riskPatterns
        (utf16 "dispute, then confidential, then perpetual") = some (report, rp1) ∧
      (report.risks.map fun f => (f.type, f.severity, f.description)).Sublist
        ((riskPatterns.high.map fun r => (r.type, "high", r.description)) ++
          (riskPatterns.medium.map fun r => (r.type, "medium", r.description)) ++
          (riskPatterns.low.map fun r => (r.type, "low", r.description))) :=
  risks_sublist_table "2026-01-01T00:00:00.000Z" riskPatterns
    (utf16 "dispute, then confidential, then perpetual") (by decide)

/-- C6: the score does not depend on how often a pattern occurs: two texts in
which the same rules have a match get the same score, the same count and the
same finding types, severities and descriptions in the same order. -/
theorem riskScore_same_matches (nowA nowB : String) (rpA rpB : RiskPatterns)
    (tA tB : JSString) (hA : rpA.reset = riskPatterns) (hB : rpB.reset = riskPatterns)
    (hsame : ∀ sr ∈ allRules riskPatterns,
      hasMatch sr.2.pattern.source tA = hasMatch sr.2.pattern.source tB) :
    ∃ rA rB rpA1 rpB1, analyzeRisks nowA rpA tA = some (rA, rpA1) ∧
      analyzeRisks nowB rpB tB = some (rB, rpB1) ∧
      rA.riskScore = rB.riskScore ∧ rA.riskCount = rB.riskCount ∧
      (rA.risks.map fun f => (f.type, f.severity, f.description)) =
        (rB.risks.map fun f => (f.type, f.severity, f.description)) := by
  have htr : ((reportOf nowA tA).risks.map fun f => (f.type, f.severity, f.description)) =
      ((reportOf nowB tB).risks.map fun f => (f.type, f.severity, f.description)) := by
    rw [triples_reportOf, triples_reportOf]
    congr 1
    apply List.filter_congr
    intro sr hsr
    exact hsame sr hsr
  refine ⟨reportOf nowA tA, reportOf nowB tB, riskPatterns, riskPatterns,
    analyzeRisks_eq nowA rpA tA hA, analyzeRisks_eq nowB rpB tB hB, ?_, ?_, htr⟩
  · rw [riskScore_reportOf, riskScore_reportOf, weights_of_triples, weights_of_triples, htr]
  · rw [riskCount_reportOf, riskCount_reportOf]
    have := congrArg List.length htr
    simpa using this

theorem riskScore_same_matches_witness :
    (∃ rA rB rpA1 rpB1,
      analyzeRisks "2026-01-01T00:00:00.000Z" riskPatterns
        (utf16 "auto-renew auto-renew auto-renew auto-renew auto-renew") = some (rA, rpA1) ∧
      analyzeRisks "2026-01-02T00:00:00.000Z" riskPatterns (utf16 "auto-renew") =
        some (rB, rpB1) ∧
      rA.riskScore = rB.riskScore ∧ rA.riskCount = rB.riskCount ∧
      (rA.risks.map fun f => (f.type, f.severity, f.description)) =
        (rB.risks.map fun f => (f.type, f.severity, f.description))) ∧
    (analyzeRisks "2026-01-01T00:00:00.000Z" riskPatterns
        (utf16 "auto-renew auto-renew auto-renew auto-renew auto-renew")).map
      (fun r => (r.1.riskScore, r.1.risks.map (·.occurrences))) = some (10, [5]) ∧
    (analyzeRisks "2026-01-02T00:00:00.000Z" riskPatterns (utf16 "auto-renew")).map
      (fun r => (r.1.riskScore, r.1.risks.map (·.occurrences))) = some (10, [1]) :=
  ⟨riskScore_same_matches "2026-01-01T00:00:00.000Z" "2026-01-02T00:00:00.000Z"
      riskPatterns riskPatterns
      (utf16 "auto-renew auto-renew auto-renew auto-renew auto-renew") (utf16 "auto-renew")
      (by decide) (by decide) (by decide),
    by decide, by decide⟩

/-- C7: the word count is the number of maximal runs of non-whitespace code
units of the text; it is 0 exactly when every code unit is whitespace; and
whitespace at the start, at the end, or after whitespace adds no word. -/
theorem wordCount_eq_wordRuns (now : String) (rp : RiskPatterns) (text : JSString)
    (hrp : rp.reset = riskPatterns) :
    ∃ report rp1, analyzeRisks now rp text = some (report, rp1) ∧
      report.wordCount = wordRuns text ∧
      (report.wordCount = 0 ↔ ∀ ch ∈ text, isWhiteSpace ch = true) ∧
      (∀ w rest, (∀ c ∈ w, isWhiteSpace c = true) → text = w ++ rest →
        report.wordCount = wordRuns rest) ∧
      (∀ w rest, (∀ c ∈ w, isWhiteSpace c = true) → text = rest ++ w →
        report.wordCount = wordRuns rest) ∧
      (∀ a c w b, isWhiteSpace c = true → (∀ x ∈ w, isWhiteSpace x = true) →
        text = a ++ c :: (w ++ b) → report.wordCount = wordRuns (a ++ c :: b)) := by
  refine ⟨reportOf now text, riskPatterns, analyzeRisks_eq now rp text hrp, rfl,
    wordRuns_eq_zero_iff text, ?_, ?_, ?_⟩
  · intro w rest hw ht
    show wordRuns text = wordRuns rest
    rw [ht, wordRuns_leading w rest hw]
  · intro w rest hw ht
    show wordRuns text = wordRuns rest
    rw [ht]
    exact startsRun_trailing w hw rest true
  · intro a c w b hc hw ht
    show wordRuns text = wordRuns (a ++ c :: b)
    rw [ht]
    exact startsRun_repeated c w b hc hw a true

theorem wordCount_eq_wordRuns_witness :
    ∃ report rp1, analyzeRisks "2026-01-01T00:00:00.000Z" riskPatterns
        (utf16 "  two   words ") = some (report, rp1) ∧
      report.wordCount = wordRuns (utf16 "  two   words ") ∧
      (report.wordCount = 0 ↔ ∀ ch ∈ utf16 "  two   words ", isWhiteSpace ch = true) ∧
      (∀ w rest, (∀ c ∈ w, isWhiteSpace c = true) → utf16 "  two   words " = w ++ rest →
        report.wordCount = wordRuns rest) ∧
      (∀ w rest, (∀ c ∈ w, isWhiteSpace c = true) → utf16 "  two   words " = rest ++ w →
        report.wordCount = wordRuns rest) ∧
      (∀ a c w b, isWhiteSpace c = true → (∀ x ∈ w, isWhiteSpace x = true) →
        utf16 "  two   words " = a ++ c :: (w ++ b) →
        report.wordCount = wordRuns (a ++ c :: b)) :=
  wordCount_eq_wordRuns "2026-01-01T00:00:00.000Z" riskPatterns (utf16 "  two   words ")
    (by decide)

/-- C8: `riskCount` is the length of `risks`. -/
theorem riskCount_eq_length (now : String) (rp : RiskPatterns) (text : JSString)
    (hrp : rp.reset = riskPatterns) :
    ∃ report rp1, analyzeRisks now rp text = some (report, rp1) ∧
      report.riskCount = report.risks.length :=
  ⟨reportOf now text, riskPatterns, analyzeRisks_eq now rp text hrp, rfl⟩

theorem riskCount_eq_length_witness :
    ∃ report rp1, analyzeRisks "2026-01-01T00:00:00.000Z" riskPatterns
        (utf16 "warranty and insurance") = some (report, rp1) ∧
      report.riskCount = report.risks.length :=
  riskCount_eq_length "2026-01-01T00:00:00.000Z" riskPatterns (utf16 "warranty and insurance")
    (by decide)

/-- C9: `analyzeRisks` returns a report for every string, the empty one and
strings of any length included: the loops of `match` and `split` end within
their bounds and no step fails. -/
theorem analyzeRisks_total (now : String) (rp : RiskPatterns) (text : JSString) :
    (∃ report rp1, analyzeRisks now rp text = some (report, rp1)) ∧
      ∃ report rp1, analyzeRisks now rp [] = some (report, rp1) :=
  ⟨analyzeRisks_isSome now rp text, analyzeRisks_isSome now rp []⟩

/-- C10: the report does not depend on the state the rule table is in. From
any state of the `lastIndex` properties, a call on a text, then calls on any
other texts, then a second call on the text: the two calls give the same
`risks`, `riskScore`, `riskCount` and `wordCount`, and every call leaves every
`lastIndex` at 0, so no match position is carried from one call to the next. -/
theorem analyzeRisks_deterministic (nowA nowB : String) (rp : RiskPatterns)
    (text : JSString) (others : List (String × JSString)) (hrp : rp.reset = riskPatterns) :
    ∃ rA reports rB rp1 rp2 rp3, analyzeRisks nowA rp text = some (rA, rp1) ∧
      analyzeEach rp1 others = some (reports, rp2) ∧
      analyzeRisks nowB rp2 text = some (rB, rp3) ∧
      rA.risks = rB.risks ∧ rA.riskScore = rB.riskScore ∧ rA.riskCount = rB.riskCount ∧
      rA.wordCount = rB.wordCount ∧
      (∀ sr ∈ allRules rp1 ++ allRules rp2 ++ allRules rp3, sr.2.pattern.lastIndex = 0) := by
  obtain ⟨reports, hr, _⟩ := analyzeEach_eq others
  exact ⟨reportOf nowA text, reports, reportOf nowB text, riskPatterns, riskPatterns,
    riskPatterns, analyzeRisks_eq nowA rp text hrp, hr,
    analyzeRisks_eq nowB riskPatterns text riskPatterns_reset, rfl, rfl, rfl, rfl, by decide⟩

theorem analyzeRisks_deterministic_witness :
    ∃ rA reports rB rp1 rp2 rp3,
      analyzeRisks "2026-01-01T00:00:00.000Z" staleTable (utf16 "penalty, penalty") =
        some (rA, rp1) ∧
      analyzeEach rp1 [("2026-01-02T00:00:00.000Z", utf16 "a notice of dispute"),
        ("2026-01-03T00:00:00.000Z", utf16 "")] = some (reports, rp2) ∧
      analyzeRisks "2026-01-04T00:00:00.000Z" rp2 (utf16 "penalty, penalty") =
        some (rB, rp3) ∧
      rA.risks = rB.risks ∧ rA.riskScore = rB.riskScore ∧ rA.riskCount = rB.riskCount ∧
      rA.wordCount = rB.wordCount ∧
      (∀ sr ∈ allRules rp1 ++ allRules rp2 ++ allRules rp3, sr.2.pattern.lastIndex = 0) :=
  analyzeRisks_deterministic "2026-01-01T00:00:00.000Z" "2026-01-04T00:00:00.000Z" staleTable
    (utf16 "penalty, penalty")
    [("2026-01-02T00:00:00.000Z", utf16 "a notice of dispute"),
      ("2026-01-03T00:00:00.000Z", utf16 "")] (by decide)

/-- C11: matching ignores the case of ASCII letters: a text and the same text
with the case of any of its ASCII letters changed get the same risks (types,
severities, descriptions, occurrences), `riskScore`, `riskCount` and
`wordCount`. -/
theorem analyzeRisks_caseVariant (nowA nowB : String) (rpA rpB : RiskPatterns)
    (t u : JSString) (hA : rpA.reset = riskPatterns) (hB : rpB.reset = riskPatterns)
    (h : CaseVariant t u) :
    ∃ rA rB rpA1 rpB1, analyzeRisks nowA rpA t = some (rA, rpA1) ∧
      analyzeRisks nowB rpB u = some (rB, rpB1) ∧
      rA.risks = rB.risks ∧ rA.riskScore = rB.riskScore ∧ rA.riskCount = rB.riskCount ∧
      rA.wordCount = rB.wordCount := by
  refine ⟨reportOf nowA t, reportOf nowB u, riskPatterns, riskPatterns,
    analyzeRisks_eq nowA rpA t hA, analyzeRisks_eq nowB rpB u hB, ?_⟩
  have e : reportOf nowB u = reportOf nowB t := (reportOf_caseVariant nowB t u h).symm
  rw [e]
  exact ⟨rfl, rfl, rfl, rfl⟩

theorem analyzeRisks_caseVariant_witness :
    ∃ rA rB rpA1 rpB1,
      analyzeRisks "2026-01-01T00:00:00.000Z" riskPatterns (utf16 "Without cause") =
        some (rA, rpA1) ∧
      analyzeRisks "2026-01-02T00:00:00.000Z" riskPatterns (utf16 "wITHOUT CAUSE") =
        some (rB, rpB1) ∧
      rA.risks = rB.risks ∧ rA.riskScore = rB.riskScore ∧ rA.riskCount = rB.riskCount ∧
      rA.wordCount = rB.wordCount :=
  analyzeRisks_caseVariant "2026-01-01T00:00:00.000Z" "2026-01-02T00:00:00.000Z"
    riskPatterns riskPatterns (utf16 "Without cause") (utf16 "wITHOUT CAUSE")
    (by decide) (by decide) (by decide)

/-- C12, as the claim states it, fails: for a Word file that `mammoth` cannot
read, extraction fails and yet `analyzeContract` reports success, with four
findings and score 19 from the fallback text. -/
theorem extraction_failure_swallowed :
    extractionFails brokenUploads (utf16 "uploads/contract.docx") = true ∧
      (analyzeContract brokenUploads "2026-01-01T00:00:00.000Z" riskPatterns
        (utf16 "uploads/contract.docx")).map
        (fun r => (r.1.success, r.1.error, r.1.riskScore, r.1.riskCount)) =
        some (true, none, 19, 4) := by
  decide

/-- C12, amended: when extraction fails for a file that is not a Word file (the
extension is not supported, or the file system call for a PDF fails),
`analyzeContract` returns `success: false` with the message of the error, no
risks, score 0 and count 0, and leaves the rule table untouched, so no regular
expression was run. For a `.docx` or `.doc` file a failure of `mammoth` is not
surfaced: the fallback text is analyzed and the result is a success with its
four findings and score 19. -/
theorem analyzeContract_of_extractionFails (env : Env) (now : String) (rp : RiskPatterns)
    (filePath : JSString) (hrp : rp.reset = riskPatterns)
    (hfail : extractionFails env filePath = true) :
    (env.toLowerCase (env.extname filePath) = utf16 ".docx" ∨
        env.toLowerCase (env.extname filePath) = utf16 ".doc" →
      ∃ result, analyzeContract env now rp filePath = some (result, riskPatterns) ∧
        result.success = true ∧ result.error = none ∧
        result.text = some (substring wordFallback 0 500) ∧
        result.risks = (reportOf now wordFallback).risks ∧
        result.risks.map (·.type) = ["Auto-Renewal", "Confidentiality Requirements",
          "Notice Requirements", "Warranty Limitations"] ∧
        result.riskScore = 19 ∧ result.riskCount = 4) ∧
    (¬ (env.toLowerCase (env.extname filePath) = utf16 ".docx" ∨
        env.toLowerCase (env.extname filePath) = utf16 ".doc") →
      ∃ message, analyzeContract env now rp filePath =
          some ({ success := false, text := none, error := some message, risks := [],
                  riskScore := 0, riskCount := 0, wordCount := none,
                  analysisDate := none }, rp) ∧
        (message = "Unsupported file type" ∨ message = "Failed to extract text from PDF")) := by
  have hfb : ((reportOf "" wordFallback).risks.map (·.type), (reportOf "" wordFallback).riskScore,
      (reportOf "" wordFallback).riskCount) =
      (["Auto-Renewal", "Confidentiality Requirements", "Notice Requirements",
        "Warranty Limitations"], 19, 4) := by decide
  simp only [Prod.mk.injEq] at hfb
  obtain ⟨hf1, hf2, hf3⟩ := hfb
  constructor
  · intro hword
    have hnotpdf : ¬ env.toLowerCase (env.extname filePath) = utf16 ".pdf" := by
      rcases hword with h | h <;> rw [h] <;> decide
    have hm : env.extractRawText filePath = none := by
      simp only [extractionFails, if_neg hnotpdf, if_pos hword, Option.isNone_iff_eq_none] at hfail
      exact hfail
    have hext : extractText env filePath = .ok wordFallback := by
      simp only [extractText, if_neg hnotpdf, if_pos hword, extractTextFromWord, hm]
    refine ⟨{ success := true, text := some (substring wordFallback 0 500), error := none,
              risks := (reportOf now wordFallback).risks,
              riskScore := (reportOf now wordFallback).riskScore,
              riskCount := (reportOf now wordFallback).riskCount,
              wordCount := some (reportOf now wordFallback).wordCount,
              analysisDate := some (reportOf now wordFallback).analysisDate }, ?_, ?_⟩
    · simp only [analyzeContract, hext, analyzeRisks_eq now rp wordFallback hrp]
    · exact ⟨rfl, rfl, rfl, rfl, hf1, hf2, hf3⟩
  · intro hnotword
    by_cases hpdf : env.toLowerCase (env.extname filePath) = utf16 ".pdf"
    · have hs : env.statSize filePath = none := by
        simp only [extractionFails, if_pos hpdf, Option.isNone_iff_eq_none] at hfail
        exact hfail
      refine ⟨"Failed to extract text from PDF", ?_, Or.inr rfl⟩
      simp only [analyzeContract, extractText, if_pos hpdf, extractTextFromPDF, hs]
    · refine ⟨"Unsupported file type", ?_, Or.inl rfl⟩
      simp only [analyzeContract, extractText, if_neg hpdf, if_neg hnotword]

theorem analyzeContract_of_extractionFails_witness :
    (brokenUploads.toLowerCase (brokenUploads.extname (utf16 "uploads/contract.pdf")) =
          utf16 ".docx" ∨
        brokenUploads.toLowerCase (brokenUploads.extname (utf16 "uploads/contract.pdf")) =
          utf16 ".doc" →
      ∃ result, analyzeContract brokenUploads "2026-01-01T00:00:00.000Z" staleTable
          (utf16 "uploads/contract.pdf") = some (result, riskPatterns) ∧
        result.success = true ∧ result.error = none ∧
        result.text = some (substring wordFallback 0 500) ∧
        result.risks = (reportOf "2026-01-01T00:00:00.000Z" wordFallback).risks ∧
        result.risks.map (·.type) = ["Auto-Renewal", "Confidentiality Requirements",
          "Notice Requirements", "Warranty Limitations"] ∧
        result.riskScore = 19 ∧ result.riskCount = 4) ∧
    (¬ (brokenUploads.toLowerCase (brokenUploads.extname (utf16 "uploads/contract.pdf")) =
          utf16 ".docx" ∨
        brokenUploads.toLowerCase (brokenUploads.extname (utf16 "uploads/contract.pdf")) =
          utf16 ".doc") →
      ∃ message, analyzeContract brokenUploads "2026-01-01T00:00:00.000Z" staleTable
          (utf16 "uploads/contract.pdf") =
          some ({ success := false, text := none, error := some message, risks := [],
                  riskScore := 0, riskCount := 0, wordCount := none,
                  analysisDate := none }, staleTable) ∧
        (message = "Unsupported file type" ∨ message = "Failed to extract text from PDF")) :=
  analyzeContract_of_extractionFails brokenUploads "2026-01-01T00:00:00.000Z" staleTable
    (utf16 "uploads/contract.pdf") (by decide) (by decide)

/-- C13: `getRiskColor` gives the red classes exactly for scores of 70 or more,
the yellow classes exactly for scores from 40 to 69 and the green classes
exactly below 40; the score of a report gets exactly one of the three. -/
theorem getRiskColor_bands (score : Int) (now : String) (rp : RiskPatterns) (text : JSString)
    (hrp : rp.reset = riskPatterns) :
    (getRiskColor score = "text-red-600 bg-red-50" ↔ 70 ≤ score) ∧
    (getRiskColor score = "text-yellow-600 bg-yellow-50" ↔ 40 ≤ score ∧ score < 70) ∧
    (getRiskColor score = "text-green-600 bg-green-50" ↔ score < 40) ∧
    ∃ report rp1, analyzeRisks now rp text = some (report, rp1) ∧
      ((70 ≤ report.riskScore ∧
          getRiskColor report.riskScore = "text-red-600 bg-red-50") ∨
        (40 ≤ report.riskScore ∧ report.riskScore < 70 ∧
          getRiskColor report.riskScore = "text-yellow-600 bg-yellow-50") ∨
        (report.riskScore < 40 ∧
          getRiskColor report.riskScore = "text-green-600 bg-green-50")) ∧
      "text-red-600 bg-red-50" ≠ "text-yellow-600 bg-yellow-50" ∧
      "text-red-600 bg-red-50" ≠ "text-green-600 bg-green-50" ∧
      "text-yellow-600 bg-yellow-50" ≠ "text-green-600 bg-green-50" := by
  have hry : "text-red-600 bg-red-50" ≠ "text-yellow-600 bg-yellow-50" := by decide
  have hrg : "text-red-600 bg-red-50" ≠ "text-green-600 bg-green-50" := by decide
  have hyg : "text-yellow-600 bg-yellow-50" ≠ "text-green-600 bg-green-50" := by decide
  refine ⟨?_, ?_, ?_, reportOf now text, riskPatterns, analyzeRisks_eq now rp text hrp, ?_,
    hry, hrg, hyg⟩
  · unfold getRiskColor
    split_ifs with h1 h2 <;> constructor <;> intro h <;>
      first | rfl | omega | exact absurd h (by decide)
  · unfold getRiskColor
    split_ifs with h1 h2 <;> constructor <;> intro h <;>
      first | rfl | omega | exact absurd h (by decide)
  · unfold getRiskColor
    split_ifs with h1 h2 <;> constructor <;> intro h <;>
      first | rfl | omega | exact absurd h (by decide)
  · unfold getRiskColor
    by_cases h1 : ((reportOf now text).riskScore : Int) ≥ 70
    · left
      exact ⟨by omega, by simp only [h1, if_true]⟩
    · by_cases h2 : ((reportOf now text).riskScore : Int) ≥ 40
      · right; left
        exact ⟨by omega, by omega, by simp only [h1, h2, if_true, if_false]⟩
      · right; right
        exact ⟨by omega, by simp only [h1, h2, if_false]⟩

theorem getRiskColor_bands_witness :
    (getRiskColor 69 = "text-red-600 bg-red-50" ↔ (70 : Int) ≤ 69) ∧
    (getRiskColor 69 = "text-yellow-600 bg-yellow-50" ↔ (40 : Int) ≤ 69 ∧ (69 : Int) < 70) ∧
    (getRiskColor 69 = "text-green-600 bg-green-50" ↔ (69 : Int) < 40) ∧
    ∃ report rp1, analyzeRisks "2026-01-01T00:00:00.000Z" riskPatterns
        (utf16 "perpetual penalty") = some (report, rp1) ∧
      ((70 ≤ report.riskScore ∧
          getRiskColor report.riskScore = "text-red-600 bg-red-50") ∨
        (40 ≤ report.riskScore ∧ report.riskScore < 70 ∧
          getRiskColor report.riskScore = "text-yellow-600 bg-yellow-50") ∨
        (report.riskScore < 40 ∧
          getRiskColor report.riskScore = "text-green-600 bg-green-50")) ∧
      "text-red-600 bg-red-50" ≠ "text-yellow-600 bg-yellow-50" ∧
      "text-red-600 bg-red-50" ≠ "text-green-600 bg-green-50" ∧
      "text-yellow-600 bg-yellow-50" ≠ "text-green-600 bg-green-50" :=
  getRiskColor_bands 69 "2026-01-01T00:00:00.000Z" riskPatterns (utf16 "perpetual penalty")
    (by decide)

/-- C14: the tables hold 7 high, 7 medium and 5 low rules; a text in which each
of the 19 rules has a match gets `riskCount` 19 and `riskScore`
min(100, 7*10 + 7*5 + 5*2) = 100; and such a text exists. -/
theorem riskScore_clamped (now : String) (rp : RiskPatterns) (text : JSString)
    (hrp : rp.reset = riskPatterns)
    (hall : ∀ sr ∈ allRules riskPatterns, hasMatch sr.2.pattern.source text = true) :
    riskPatterns.high.length = 7 ∧ riskPatterns.medium.length = 7 ∧
    riskPatterns.low.length = 5 ∧
    (∃ report rp1, analyzeRisks now rp text = some (report, rp1) ∧
      report.riskCount = 19 ∧ report.riskScore = min 100 (7 * 10 + 7 * 5 + 5 * 2) ∧
      report.riskScore = 100) ∧
    ∀ sr ∈ allRules riskPatterns, hasMatch sr.2.pattern.source allRulesText = true := by
  have hfull : ∀ rules : List RiskRule,
      (∀ r ∈ rules, hasMatch r.pattern.source text = true) → matched text rules = rules := by
    intro rules h
    simp only [matched, List.filter_eq_self]
    exact h
  have hH : matched text riskPatterns.high = riskPatterns.high :=
    hfull _ fun r hr => hall ("high", r) (by simp [allRules, hr])
  have hM : matched text riskPatterns.medium = riskPatterns.medium :=
    hfull _ fun r hr => hall ("medium", r) (by simp [allRules, hr])
  have hL : matched text riskPatterns.low = riskPatterns.low :=
    hfull _ fun r hr => hall ("low", r) (by simp [allRules, hr])
  have h7 : riskPatterns.high.length = 7 := by decide
  have h7m : riskPatterns.medium.length = 7 := by decide
  have h5 : riskPatterns.low.length = 5 := by decide
  refine ⟨h7, h7m, h5, ⟨reportOf now text, riskPatterns, analyzeRisks_eq now rp text hrp, ?_, ?_, ?_⟩,
    by decide⟩
  · rw [riskCount_reportOf]
    simp only [reportOf, tierFindings, hH, hM, hL, List.length_append, List.length_map, h7, h7m,
      h5]
  · rw [riskScore_reportOf_tiers, hH, hM, hL, h7, h7m, h5]
    decide
  · rw [riskScore_reportOf_tiers, hH, hM, hL, h7, h7m, h5]
    decide

theorem riskScore_clamped_witness :
    riskPatterns.high.length = 7 ∧ riskPatterns.medium.length = 7 ∧
    riskPatterns.low.length = 5 ∧
    (∃ report rp1, analyzeRisks "2026-01-01T00:00:00.000Z" riskPatterns allRulesText =
        some (report, rp1) ∧
      report.riskCount = 19 ∧ report.riskScore = min 100 (7 * 10 + 7 * 5 + 5 * 2) ∧
      report.riskScore = 100) ∧
    ∀ sr ∈ allRules riskPatterns, hasMatch sr.2.pattern.source allRulesText = true :=
  riskScore_clamped "2026-01-01T00:00:00.000Z" riskPatterns allRulesText (by decide) (by decide)

/-- C15: for the text "This agreement shall auto-renew annually." the report
has exactly one finding, Auto-Renewal of severity high with one occurrence,
`riskScore` 10 and `riskCount` 1. -/
theorem analyzeRisks_autoRenew (now : String) (rp : RiskPatterns)
    (hrp : rp.reset = riskPatterns) :
    analyzeRisks now rp (utf16 "This agreement shall auto-renew annually.") =
      some ({ risks := [{ type := "Auto-Renewal", severity := "high",
                          description := "Automatic renewal clause detected",
                          occurrences := 1 }],
              riskScore := 10, riskCount := 1, wordCount := 5, analysisDate := now },
            riskPatterns) := by
  rw [analyzeRisks_eq now rp _ hrp, reportOf_now]
  have h : reportOf "" (utf16 "This agreement shall auto-renew annually.") =
      { risks := [{ type := "Auto-Renewal", severity := "high",
                    description := "Automatic renewal clause detected", occurrences := 1 }],
        riskScore := 10, riskCount := 1, wordCount := 5, analysisDate := "" } := by decide
  rw [h]

theorem analyzeRisks_autoRenew_witness :
    analyzeRisks "2026-01-01T00:00:00.000Z" staleTable
        (utf16 "This agreement shall auto-renew annually.") =
      some ({ risks := [{ type := "Auto-Renewal", severity := "high",
                          description := "Automatic renewal clause detected",
                          occurrences := 1 }],
              riskScore := 10, riskCount := 1, wordCount := 5,
              analysisDate := "2026-01-01T00:00:00.000Z" },
            riskPatterns) :=
  analyzeRisks_autoRenew "2026-01-01T00:00:00.000Z" staleTable (by decide)

/-- C16: scoring adds up across tiers: a text that contains "indemnify all
claims", "auto-renew" and "confidential" and in which no other rule has a
match gets exactly three findings, in the order Broad Indemnification (high),
Auto-Renewal (high), Confidentiality Requirements (medium), with `riskScore`
25 = 10 + 10 + 5 and `riskCount` 3. -/
theorem analyzeRisks_three_risks (now : String) (rp : RiskPatterns) (text : JSString)
    (hrp : rp.reset = riskPatterns)
    (h1 : utf16 "indemnify all claims" <:+: text)
    (h2 : utf16 "auto-renew" <:+: text)
    (h3 : utf16 "confidential" <:+: text)
    (hother : ∀ sr ∈ allRules riskPatterns,
      sr.2.type ∉ ["Broad Indemnification", "Auto-Renewal", "Confidentiality Requirements"] →
        hasMatch sr.2.pattern.source text = false) :
    ∃ report rp1, analyzeRisks now rp text = some (report, rp1) ∧
      (report.risks.map fun f => (f.type, f.severity)) =
        [("Broad Indemnification", "high"), ("Auto-Renewal", "high"),
          ("Confidentiality Requirements", "medium")] ∧
      report.riskScore = 25 ∧ report.riskCount = 3 ∧ 25 = 10 + 10 + 5 := by
  have hex : ∀ sr ∈ allRules riskPatterns,
      sr.2.type ∉ ["Broad Indemnification", "Auto-Renewal", "Confidentiality Requirements"] →
        hasMatch sr.2.pattern.source threeRisksText = false := by decide
  have hsame : ∀ sr ∈ allRules riskPatterns,
      hasMatch sr.2.pattern.source text = hasMatch sr.2.pattern.source threeRisksText := by
    intro sr hsr
    by_cases ht : sr.2.type ∈
        ["Broad Indemnification", "Auto-Renewal", "Confidentiality Requirements"]
    · simp only [List.mem_cons, List.mem_singleton, List.not_mem_nil, or_false] at ht
      rcases ht with ht | ht | ht
      · have e := rule_eq_of_type_eq sr
          ("high", rule (lit "indemnify" ++ anything ++ lit "all" ++ spaces ++ lit "claims")
            "Broad Indemnification" "Very broad indemnification obligations")
          hsr (by decide) ht
        rw [e]
        have ha := hasMatch_indemnify text h1
        have hb : hasMatch (lit "indemnify" ++ anything ++ lit "all" ++ spaces ++ lit "claims")
            threeRisksText = true := by decide
        exact ha.trans hb.symm
      · have e := rule_eq_of_type_eq sr
          ("high", rule (lit "auto" ++ anyOpt ++ lit "renew") "Auto-Renewal"
            "Automatic renewal clause detected")
          hsr (by decide) ht
        rw [e]
        have ha := hasMatch_autoRenew text h2
        have hb : hasMatch (lit "auto" ++ anyOpt ++ lit "renew") threeRisksText = true := by
          decide
        exact ha.trans hb.symm
      · have e := rule_eq_of_type_eq sr
          ("medium", rule (lit "confidential") "Confidentiality Requirements"
            "Contains confidentiality obligations")
          hsr (by decide) ht
        rw [e]
        have ha := hasMatch_confidential text h3
        have hb : hasMatch (lit "confidential") threeRisksText = true := by decide
        exact ha.trans hb.symm
    · rw [hother sr hsr ht, hex sr hsr ht]
  obtain ⟨htr, hs, hc⟩ := reportOf_same_matches now "" text threeRisksText hsame
  have hval : ((reportOf "" threeRisksText).risks.map fun f =>
        (f.type, f.severity, f.description)).map (fun t => (t.1, t.2.1)) =
        [("Broad Indemnification", "high"), ("Auto-Renewal", "high"),
          ("Confidentiality Requirements", "medium")] ∧
      (reportOf "" threeRisksText).riskScore = 25 ∧
      (reportOf "" threeRisksText).riskCount = 3 := by decide
  refine ⟨reportOf now text, riskPatterns, analyzeRisks_eq now rp text hrp, ?_, ?_, ?_, rfl⟩
  · rw [← hval.1, ← htr, List.map_map]
    rfl
  · rw [hs]; exact hval.2.1
  · rw [hc]; exact hval.2.2

theorem analyzeRisks_three_risks_witness :
    ∃ report rp1, analyzeRisks "2026-01-01T00:00:00.000Z" riskPatterns threeRisksText =
        some (report, rp1) ∧
      (report.risks.map fun f => (f.type, f.severity)) =
        [("Broad Indemnification", "high"), ("Auto-Renewal", "high"),
          ("Confidentiality Requirements", "medium")] ∧
      report.riskScore = 25 ∧ report.riskCount = 3 ∧ 25 = 10 + 10 + 5 :=
  analyzeRisks_three_risks "2026-01-01T00:00:00.000Z" riskPatterns threeRisksText
    (by decide) (by decide) (by decide) (by decide) (by decide)

/-- C17: for n ≥ 1 copies of "notice" separated by single spaces the report
has exactly one finding, Notice Requirements of severity low with n
occurrences, `riskScore` 2 and `riskCount` 1; the text is the one of the spec
for n = 50. -/
theorem analyzeRisks_notice (n : Nat) (now : String) (rp : RiskPatterns) (hn : 1 ≤ n)
    (hrp : rp.reset = riskPatterns) :
    ∃ report rp1, analyzeRisks now rp (noticeText n) = some (report, rp1) ∧
      report.risks = [{ type := "Notice Requirements", severity := "low",
                        description := "Contains notice requirements", occurrences := n }] ∧
      report.riskScore = 2 ∧ report.riskCount = 1 ∧
      noticeText n = List.intercalate (utf16 " ") (List.replicate n (utf16 "notice")) := by
  obtain ⟨k, rfl⟩ : ∃ k, n = k + 1 := ⟨n - 1, by omega⟩
  have hcount := countMatches_notice k
  have hsame : ∀ sr ∈ allRules riskPatterns,
      hasMatch sr.2.pattern.source (noticeText (k + 1)) =
        hasMatch sr.2.pattern.source (noticeText 1) := by
    intro sr hsr
    by_cases hty : sr.2.type = "Notice Requirements"
    · have e := rule_eq_of_type_eq sr
        ("low", rule (lit "notice") "Notice Requirements" "Contains notice requirements")
        hsr (by decide) hty
      rw [e]
      have ha : hasMatch (lit "notice") (noticeText (k + 1)) = true :=
        (countMatches_pos_iff _ _).mp (by rw [hcount]; omega)
      have hb : hasMatch (lit "notice") (noticeText 1) = true := by decide
      exact ha.trans hb.symm
    · rw [others_no_match_in_notice k sr hsr hty, others_no_match_in_notice 0 sr hsr hty]
  have hfilter : ((allRules riskPatterns).filter fun sr =>
      hasMatch sr.2.pattern.source (noticeText (k + 1))) =
      [("low", rule (lit "notice") "Notice Requirements" "Contains notice requirements")] := by
    rw [List.filter_congr hsame]
    decide
  have hrisks : (reportOf now (noticeText (k + 1))).risks =
      [{ type := "Notice Requirements", severity := "low",
         description := "Contains notice requirements", occurrences := k + 1 }] := by
    rw [risks_reportOf, hfilter]
    simp only [List.map_cons, List.map_nil, findingOf, rule, hcount]
  refine ⟨reportOf now (noticeText (k + 1)), riskPatterns,
    analyzeRisks_eq now rp _ hrp, hrisks, ?_, ?_, rfl⟩
  · rw [riskScore_reportOf, hrisks]
    rfl
  · rw [riskCount_reportOf, hrisks]
    rfl

theorem analyzeRisks_notice_witness :
    ∃ report rp1, analyzeRisks "2026-01-01T00:00:00.000Z" riskPatterns (noticeText 50) =
        some (report, rp1) ∧
      report.risks = [{ type := "Notice Requirements", severity := "low",
                        description := "Contains notice requirements", occurrences := 50 }] ∧
      report.riskScore = 2 ∧ report.riskCount = 1 ∧
      noticeText 50 = List.intercalate (utf16 " ") (List.replicate 50 (utf16 "notice")) :=
  analyzeRisks_notice 50 "2026-01-01T00:00:00.000Z" riskPatterns (by decide) (by decide)

/-- C18: for the empty string the report has no risks, `riskScore` 0,
`riskCount` 0 and `wordCount` 0. -/
theorem analyzeRisks_empty (now : String) (rp : RiskPatterns)
    (hrp : rp.reset = riskPatterns) :
    analyzeRisks now rp (utf16 "") =
      some ({ risks := [], riskScore := 0, riskCount := 0, wordCount := 0,
              analysisDate := now }, riskPatterns) ∧ utf16 "" = [] := by
  refine ⟨?_, rfl⟩
  rw [analyzeRisks_eq now rp _ hrp, reportOf_now]
  have h : reportOf "" (utf16 "") =
      { risks := [], riskScore := 0, riskCount := 0, wordCount := 0, analysisDate := "" } := by
    decide
  rw [h]

theorem analyzeRisks_empty_witness :
    analyzeRisks "2026-01-01T00:00:00.000Z" staleTable (utf16 "") =
      some ({ risks := [], riskScore := 0, riskCount := 0, wordCount := 0,
              analysisDate := "2026-01-01T00:00:00.000Z" }, riskPatterns) ∧ utf16 "" = [] :=
  analyzeRisks_empty "2026-01-01T00:00:00.000Z" staleTable (by decide)

/-- C19: the three rules whose pattern has a greedy `.*` (Broad
Indemnification, Short Termination Notice, Liability Limits) are counted at
most once for each line: the occurrences of such a finding are at most the
number of lines of the text (line terminators + 1), so exactly 1 in a text of
one line; the line "indemnify all claims and indemnify all claims" is reported
with 1 occurrence. -/
theorem occurrences_le_lines (now : String) (rp : RiskPatterns) (text : JSString)
    (hrp : rp.reset = riskPatterns) :
    (∃ report rp1, analyzeRisks now rp text = some (report, rp1) ∧
      ∀ f ∈ report.risks,
        f.type ∈ ["Broad Indemnification", "Short Termination Notice", "Liability Limits"] →
          f.occurrences ≤ lineBreaks text + 1 ∧ (lineBreaks text = 0 → f.occurrences = 1)) ∧
    (∃ report rp1, analyzeRisks now rp twiceOnOneLine = some (report, rp1) ∧
      (report.risks.map fun f => (f.type, f.occurrences)) = [("Broad Indemnification", 1)]) := by
  constructor
  · refine ⟨reportOf now text, riskPatterns, analyzeRisks_eq now rp text hrp, ?_⟩
    intro f hf hty
    obtain ⟨sr, hsr, hmatch, rfl⟩ := (mem_risks_reportOf now text f).mp hf
    have hpos : 1 ≤ countMatches sr.2.pattern.source text :=
      (countMatches_pos_iff _ _).mpr hmatch
    have hle : countMatches sr.2.pattern.source text ≤ lineBreaks text + 1 := by
      simp only [List.mem_cons, List.mem_singleton, List.not_mem_nil, or_false] at hty
      rcases hty with ht | ht | ht
      · have e := rule_eq_of_type_eq sr
          ("high", rule (lit "indemnify" ++ anything ++ lit "all" ++ spaces ++ lit "claims")
            "Broad Indemnification" "Very broad indemnification obligations")
          hsr (by decide) ht
        rw [e]
        exact countMatches_le_lines (utf16 "indemnify") (lit "all" ++ spaces ++ lit "claims") _
          (by decide) (by decide) (by decide) text
      · have e := rule_eq_of_type_eq sr
          ("medium", rule (lit "termin" ++ anything ++ lit "30" ++ anything ++ lit "days")
            "Short Termination Notice" "Short notice period for termination")
          hsr (by decide) ht
        rw [e]
        exact countMatches_le_lines (utf16 "termin") (lit "30" ++ anything ++ lit "days") _
          (by decide) (by decide) (by decide) text
      · have e := rule_eq_of_type_eq sr
          ("medium", rule (lit "liability" ++ anything ++ lit "limit") "Liability Limits"
            "Liability limitations present")
          hsr (by decide) ht
        rw [e]
        exact countMatches_le_lines (utf16 "liability") (lit "limit") _
          (by decide) (by decide) (by decide) text
    refine ⟨hle, ?_⟩
    intro h0
    show countMatches sr.2.pattern.source text = 1
    omega
  · refine ⟨reportOf now twiceOnOneLine, riskPatterns,
      analyzeRisks_eq now rp twiceOnOneLine hrp, ?_⟩
    have h : ((reportOf "" twiceOnOneLine).risks.map fun f => (f.type, f.occurrences)) =
        [("Broad Indemnification", 1)] := by decide
    exact h

theorem occurrences_le_lines_witness :
    (∃ report rp1, analyzeRisks "2026-01-01T00:00:00.000Z" riskPatterns
        (utf16 "liability limit, liability limit\nliability limit") = some (report, rp1) ∧
      ∀ f ∈ report.risks,
        f.type ∈ ["Broad Indemnification", "Short Termination Notice", "Liability Limits"] →
          f.occurrences ≤
              lineBreaks (utf16 "liability limit, liability limit\nliability limit") + 1 ∧
            (lineBreaks (utf16 "liability limit, liability limit\nliability limit") = 0 →
              f.occurrences = 1)) ∧
    (∃ report rp1, analyzeRisks "2026-01-01T00:00:00.000Z" riskPatterns twiceOnOneLine =
        some (report, rp1) ∧
      (report.risks.map fun f => (f.type, f.occurrences)) = [("Broad Indemnification", 1)]) :=
  occurrences_le_lines "2026-01-01T00:00:00.000Z" riskPatterns
    (utf16 "liability limit, liability limit\nliability limit") (by decide)

/-- C20: a score in the red band needs high findings: a report with
`riskScore` of 70 or more (the score `getRiskColor` shows in red) has at least
3 findings of severity high, and a report without a finding of severity high
has `riskScore` at most 45 = 7*5 + 5*2. -/
theorem red_needs_high (now : String) (rp : RiskPatterns) (text : JSString)
    (hrp : rp.reset = riskPatterns) :
    ∃ report rp1, analyzeRisks now rp text = some (report, rp1) ∧
      (70 ≤ report.riskScore →
        3 ≤ (report.risks.filter fun f => decide (f.severity = "high")).length) ∧
      (getRiskColor report.riskScore = "text-red-600 bg-red-50" →
        3 ≤ (report.risks.filter fun f => decide (f.severity = "high")).length) ∧
      ((∀ f ∈ report.risks, f.severity ≠ "high") → report.riskScore ≤ 45) ∧
      45 = 7 * 5 + 5 * 2 := by
  have hM : (matched text riskPatterns.medium).length ≤ 7 := matched_length_le _ _
  have hL : (matched text riskPatterns.low).length ≤ 5 := matched_length_le _ _
  have hscore := riskScore_reportOf_tiers now text
  have hhigh := high_reportOf now text
  have h70 : 70 ≤ (reportOf now text).riskScore →
      3 ≤ ((reportOf now text).risks.filter fun f => decide (f.severity = "high")).length := by
    intro h
    rw [hhigh]
    rw [hscore] at h
    omega
  refine ⟨reportOf now text, riskPatterns, analyzeRisks_eq now rp text hrp, h70, ?_, ?_, rfl⟩
  · intro hred
    apply h70
    by_contra hlt
    have : ¬ ((reportOf now text).riskScore : Int) ≥ 70 := by omega
    unfold getRiskColor at hred
    rw [if_neg this] at hred
    split at hred
    · exact absurd hred (by decide)
    · exact absurd hred (by decide)
  · intro hno
    have h0 : ((reportOf now text).risks.filter fun f => decide (f.severity = "high")) = [] := by
      rw [List.filter_eq_nil_iff]
      intro f hf
      simpa using hno f hf
    have : (matched text riskPatterns.high).length = 0 := by
      rw [← hhigh, h0]; rfl
    rw [hscore, this]
    omega

theorem red_needs_high_witness :
    ∃ report rp1, analyzeRisks "2026-01-01T00:00:00.000Z" riskPatterns allRulesText =
        some (report, rp1) ∧
      (70 ≤ report.riskScore →
        3 ≤ (report.risks.filter fun f => decide (f.severity = "high")).length) ∧
      (getRiskColor report.riskScore = "text-red-600 bg-red-50" →
        3 ≤ (report.risks.filter fun f => decide (f.severity = "high")).length) ∧
      ((∀ f ∈ report.risks, f.severity ≠ "high") → report.riskScore ≤ 45) ∧
      45 = 7 * 5 + 5 * 2 :=
  red_needs_high "2026-01-01T00:00:00.000Z" riskPatterns allRulesText (by decide)

/-- C21: the analysis of a PDF does not depend on its contents: the text is
`sampleText` of the lower-cased file name, the size and the time, and for every
existing `.pdf` file whose lower-cased base name matches no rule pattern,
whatever its size, `analyzeContract` returns success with the same 14 findings
(2 high, all 7 medium, all 5 low), `riskCount` 14 and `riskScore` 65. -/
theorem analyzeContract_pdf (env : Env) (now : String) (rp : RiskPatterns)
    (filePath : JSString) (size : Nat) (hrp : rp.reset = riskPatterns)
    (hext : env.toLowerCase (env.extname filePath) = utf16 ".pdf")
    (hstat : env.statSize filePath = some size)
    (hname : ∀ sr ∈ allRules riskPatterns,
      hasMatch sr.2.pattern.source (env.toLowerCase (env.basename filePath)) = false)
    (htime : ∀ c ∈ env.isoTime, c ∈ isoChars) :
    extractText env filePath =
        .ok (sampleText (env.toLowerCase (env.basename filePath)) size env.isoTime) ∧
    ∃ result, analyzeContract env now rp filePath = some (result, riskPatterns) ∧
      result.success = true ∧ result.error = none ∧
      (result.risks.map fun f => (f.type, f.severity, f.occurrences)) =
        [("Broad Indemnification", "high", 1), ("Auto-Renewal", "high", 1),
          ("Short Termination Notice", "medium", 1), ("Termination Without Cause", "medium", 1),
          ("Confidentiality Requirements", "medium", 2), ("Audit Rights", "medium", 1),
          ("Price Escalation", "medium", 1), ("Liability Limits", "medium", 1),
          ("Jurisdiction", "medium", 1), ("Force Majeure", "low", 2),
          ("Notice Requirements", "low", 5), ("Warranty Limitations", "low", 1),
          ("Insurance Requirements", "low", 2), ("Dispute Resolution", "low", 2)] ∧
      result.riskCount = 14 ∧ result.riskScore = 65 := by
  have hx : extractText env filePath =
      .ok (sampleText (env.toLowerCase (env.basename filePath)) size env.isoTime) := by
    simp only [extractText, hext, if_true, extractTextFromPDF, hstat]
  have hcounts := counts_sampleText (env.toLowerCase (env.basename filePath)) size env.isoTime
    hname htime
  have hrisks := risks_eq_findingsFromCounts now
    (sampleText (env.toLowerCase (env.basename filePath)) size env.isoTime)
  rw [hcounts] at hrisks
  obtain ⟨hf1, hf2, hf3⟩ := pdf_findings
  have hcount := riskCount_reportOf now
    (sampleText (env.toLowerCase (env.basename filePath)) size env.isoTime)
  have hscore := riskScore_reportOf now
    (sampleText (env.toLowerCase (env.basename filePath)) size env.isoTime)
  have hcall := analyzeRisks_eq now rp
    (sampleText (env.toLowerCase (env.basename filePath)) size env.isoTime) hrp
  generalize reportOf now
    (sampleText (env.toLowerCase (env.basename filePath)) size env.isoTime) = report
    at hrisks hcount hscore hcall
  rw [hrisks] at hcount hscore
  rw [← hrisks] at hf1
  refine ⟨hx, ⟨{
      success := true
      text := some (substring
        (sampleText (env.toLowerCase (env.basename filePath)) size env.isoTime) 0 500)
      error := none
      risks := report.risks
      riskScore := report.riskScore
      riskCount := report.riskCount
      wordCount := some report.wordCount
      analysisDate := some report.analysisDate },
    ?_, rfl, rfl, hf1, hcount.trans hf2, hscore.trans hf3⟩⟩
  simp only [analyzeContract, hx, hcall]

theorem analyzeContract_pdf_witness :
    extractText pdfUploads (utf16 "uploads/Report.PDF") =
        .ok (sampleText (pdfUploads.toLowerCase (pdfUploads.basename (utf16 "uploads/Report.PDF")))
          2048 pdfUploads.isoTime) ∧
    ∃ result, analyzeContract pdfUploads "2026-01-01T00:00:00.000Z" staleTable
        (utf16 "uploads/Report.PDF") = some (result, riskPatterns) ∧
      result.success = true ∧ result.error = none ∧
      (result.risks.map fun f => (f.type, f.severity, f.occurrences)) =
        [("Broad Indemnification", "high", 1), ("Auto-Renewal", "high", 1),
          ("Short Termination Notice", "medium", 1), ("Termination Without Cause", "medium", 1),
          ("Confidentiality Requirements", "medium", 2), ("Audit Rights", "medium", 1),
          ("Price Escalation", "medium", 1), ("Liability Limits", "medium", 1),
          ("Jurisdiction", "medium", 1), ("Force Majeure", "low", 2),
          ("Notice Requirements", "low", 5), ("Warranty Limitations", "low", 1),
          ("Insurance Requirements", "low", 2), ("Dispute Resolution", "low", 2)] ∧
      result.riskCount = 14 ∧ result.riskScore = 65 :=
  analyzeContract_pdf pdfUploads "2026-01-01T00:00:00.000Z" staleTable
    (utf16 "uploads/Report.PDF") 2048 (by decide) (by decide) (by decide) (by decide)
    (by decide)

/-- C22: adding text never removes a finding or lowers the score: every
finding type of the report of `t` is a finding type of the reports of `t ++ u`
and of `u ++ t`, and the scores of those reports are at least the score of
`t`. -/
theorem analyzeRisks_append_mono (now : String) (rp : RiskPatterns) (t u : JSString)
    (hrp : rp.reset = riskPatterns) :
    ∃ r rR rL rp1 rp2 rp3, analyzeRisks now rp t = some (r, rp1) ∧
      analyzeRisks now rp (t ++ u) = some (rR, rp2) ∧
      analyzeRisks now rp (u ++ t) = some (rL, rp3) ∧
      (∀ f ∈ r.risks, ∃ g ∈ rR.risks, g.type = f.type) ∧
      (∀ f ∈ r.risks, ∃ g ∈ rL.risks, g.type = f.type) ∧
      r.riskScore ≤ rR.riskScore ∧ r.riskScore ≤ rL.riskScore := by
  have hR := reportOf_mono now now t (t ++ u) fun m => hasMatch_append_right m t u
  have hL := reportOf_mono now now t (u ++ t) fun m => hasMatch_append_left m t u
  exact ⟨reportOf now t, reportOf now (t ++ u), reportOf now (u ++ t), riskPatterns,
    riskPatterns, riskPatterns, analyzeRisks_eq now rp t hrp,
    analyzeRisks_eq now rp (t ++ u) hrp, analyzeRisks_eq now rp (u ++ t) hrp,
    hR.1, hL.1, hR.2, hL.2⟩

theorem analyzeRisks_append_mono_witness :
    (∃ r rR rL rp1 rp2 rp3,
      analyzeRisks "2026-01-01T00:00:00.000Z" riskPatterns (utf16 "penalty, notice") =
        some (r, rp1) ∧
      analyzeRisks "2026-01-01T00:00:00.000Z" riskPatterns
        (utf16 "penalty, notice" ++ utf16 " and auto-renew") = some (rR, rp2) ∧
      analyzeRisks "2026-01-01T00:00:00.000Z" riskPatterns
        (utf16 " and auto-renew" ++ utf16 "penalty, notice") = some (rL, rp3) ∧
      (∀ f ∈ r.risks, ∃ g ∈ rR.risks, g.type = f.type) ∧
      (∀ f ∈ r.risks, ∃ g ∈ rL.risks, g.type = f.type) ∧
      r.riskScore ≤ rR.riskScore ∧ r.riskScore ≤ rL.riskScore) ∧
    (analyzeRisks "2026-01-01T00:00:00.000Z" riskPatterns (utf16 "penalty, notice")).map
      (fun r => (r.1.risks.map (·.type), r.1.riskScore)) =
      some (["Penalties", "Notice Requirements"], 12) ∧
    (analyzeRisks "2026-01-01T00:00:00.000Z" riskPatterns
      (utf16 "penalty, notice" ++ utf16 " and auto-renew")).map
      (fun r => (r.1.risks.map (·.type), r.1.riskScore)) =
      some (["Auto-Renewal", "Penalties", "Notice Requirements"], 22) ∧
    (analyzeRisks "2026-01-01T00:00:00.000Z" riskPatterns
      (utf16 " and auto-renew" ++ utf16 "penalty, notice")).map
      (fun r => (r.1.risks.map (·.type), r.1.riskScore)) =
      some (["Auto-Renewal", "Penalties", "Notice Requirements"], 22) :=
  ⟨analyzeRisks_append_mono "2026-01-01T00:00:00.000Z" riskPatterns (utf16 "penalty, notice")
      (utf16 " and auto-renew") (by decide),
    by decide, by decide, by decide⟩

end Analyzer
